import Mathlib

/-!
# A verification model of the go-shapefile decoders

This file gives a shallow embedding, in Lean 4, of the core decoders of the
`shapefile` Go package: the `.shp` geometry-record decoder (`ReadSHP`,
`ReadSHPRecord`), the shared `.shp`/`.shx` header parser (`parseSHxHeader`),
the bounds-checked byte-slice cursor (`byteSliceReader`), the polygon
ring-orientation resolver (`makeMultiPolygonEndss`, `doubleArea`) and the
`.dbf` attribute-table decoder (`ReadDBF`).  Theorems at the end of the file
settle the spec's testable properties against these definitions.

Modelling conventions, stated once here:

* Byte streams (`io.Reader`) are modelled as `List UInt8` with the semantics
  of Go's `bytes.Reader`: a read fills as many bytes as remain and reports
  `io.EOF` once the stream is exhausted.  `readFull` below mirrors the
  package's own `readFull` helper on such a stream.
* IEEE-754 binary64 values are modelled by `FloatQ`: finite doubles are
  decoded exactly into rationals (the decoding of a bit pattern is exact),
  and `+Inf`, `-Inf` and `NaN` are represented explicitly with the IEEE
  comparison rules.  Arithmetic on finite values is idealised as exact
  rational arithmetic (real IEEE arithmetic rounds each intermediate
  result); every concrete input used by a theorem in this file only involves
  values on which IEEE double arithmetic is itself exact, so the idealisation
  does not affect any stated result.  The distinction between -0.0 and +0.0
  is dropped (both decode to the rational 0); IEEE comparisons treat them as
  equal, and no modelled code path distinguishes them.
* Go `error` values produced with `errors.New`/`fmt.Errorf` are modelled by
  the enumeration `ErrM`, one constructor per distinct error condition; the
  data interpolated into a message (offsets, field names) is dropped.
  `io.EOF` and `io.ErrUnexpectedEOF` are `ErrM.eof` and
  `ErrM.unexpectedEOF`; `errors.Is(err, io.EOF)` is equality with
  `ErrM.eof`.
* Out-of-range slice reads in Go panic.  The byte-access helpers below are
  total (out-of-range bytes read as 0) and each place where the Go code
  could index out of range is unreachable from the modelled entry points;
  this is noted where it occurs.
-/

set_option maxRecDepth 4000
set_option exponentiation.threshold 1200

/- Batteries marks the arithmetic on `Rat` `@[irreducible]`, which blocks
`decide`-based evaluation of the decoders on concrete inputs; restore the
default transparency for this file. -/
set_option allowUnsafeReducibility true
attribute [local semireducible] Rat.add Rat.mul Rat.sub Rat.inv

deriving instance DecidableEq for Except

namespace GoShapefile

/-- Error values of the decoders: one constructor per distinct error
condition of the Go code (`errors.New` / `fmt.Errorf` messages, plus
`io.EOF` and `io.ErrUnexpectedEOF`).  `field e` models the
`fmt.Errorf("field %s: %w", ..., err)` wrapper. -/
inductive ErrM where
  | eof
  | unexpectedEOF
  | unexpectedEndOfData
  | fileTooShort
  | invalidHeaderLength
  | invalidFileCode
  | invalidFileLength
  | invalidHeaderVersion
  | invalidShapeType
  | unsupportedShapeType
  | contentLengthTooShort
  | contentLengthTooLarge
  | invalidContentLength
  | invalidNumberOfParts
  | tooManyParts
  | tooManyPoints
  | invalidPart
  | tooFewPointsInRing
  | zeroAreaRing
  | invalidRecordNumber
  | unsupportedVersion
  | memoFilesNotSupported
  | dbtFilesNotSupported
  | tooManyRecords
  | headerTooLarge
  | recordsTooLarge
  | invalidFieldType
  | invalidTotalLengthOfFields
  | unknownCharset
  | invalidRecordFlag
  | invalidEndOfFileMarker
  | invalidDateFieldLength
  | invalidYear
  | invalidMonth
  | invalidDay
  | invalidNumeric
  | invalidLogical
  | unsupportedFieldType
  | field (e : ErrM)
deriving DecidableEq, Repr

/-- Total byte access: `data[i]`, reading 0 out of range.  Every use below
either sits behind an explicit length check (mirroring the Go code) or is
noted as unreachable from the modelled entry points. -/
def byteAt (data : List UInt8) (i : Nat) : UInt8 :=
  data.getD i 0

/-- Little-endian unsigned 32-bit integer at offset `off`
(`binary.LittleEndian.Uint32`). -/
def leU32 (data : List UInt8) (off : Nat) : Nat :=
  (byteAt data off).toNat + 256 * (byteAt data (off + 1)).toNat +
    65536 * (byteAt data (off + 2)).toNat + 16777216 * (byteAt data (off + 3)).toNat

/-- Little-endian unsigned 16-bit integer at offset `off`
(`binary.LittleEndian.Uint16`). -/
def leU16 (data : List UInt8) (off : Nat) : Nat :=
  (byteAt data off).toNat + 256 * (byteAt data (off + 1)).toNat

/-- Big-endian unsigned 32-bit integer at offset `off`
(`binary.BigEndian.Uint32`). -/
def beU32 (data : List UInt8) (off : Nat) : Nat :=
  (byteAt data (off + 3)).toNat + 256 * (byteAt data (off + 2)).toNat +
    65536 * (byteAt data (off + 1)).toNat + 16777216 * (byteAt data off).toNat

/-- Little-endian unsigned 64-bit integer at offset `off`
(`binary.LittleEndian.Uint64`). -/
def leU64 (data : List UInt8) (off : Nat) : Nat :=
  leU32 data off + 4294967296 * leU32 data (off + 4)

/-- An IEEE-754 binary64 value, with finite values carried exactly as
rationals.  See the modelling conventions in the file header. -/
inductive FloatQ where
  | finite (q : ℚ)
  | posInf
  | negInf
  | nan
deriving DecidableEq, Repr

/-- 2 ^ n as a rational. -/
def twoPow (n : Nat) : ℚ :=
  ((2 ^ n : ℕ) : ℚ)

/-- Exact decoding of an IEEE-754 binary64 bit pattern
(`math.Float64frombits`).  Finite values (normal and subnormal) decode to
their exact rational value; -0.0 decodes to 0. -/
def floatQOfBits (bits : Nat) : FloatQ :=
  let sign : Nat := bits / 2 ^ 63
  let expF : Nat := bits / 2 ^ 52 % 2 ^ 11
  let frac : Nat := bits % 2 ^ 52
  if expF = 2047 then
    if frac = 0 then (if sign = 1 then .negInf else .posInf) else .nan
  else
    let mag : ℚ :=
      if expF = 0 then (frac : ℚ) * (twoPow 1074)⁻¹
      else ((2 ^ 52 + frac : ℕ) : ℚ) *
        (if 1075 ≤ expF then twoPow (expF - 1075) else (twoPow (1075 - expF))⁻¹)
    if sign = 1 then .finite (-mag) else .finite mag

/-- IEEE-754 binary64 value at offset `off`, little-endian
(`math.Float64frombits(binary.LittleEndian.Uint64(...))`). -/
def leF64 (data : List UInt8) (off : Nat) : FloatQ :=
  floatQOfBits (leU64 data off)

namespace FloatQ

/-- IEEE negation. -/
def neg : FloatQ → FloatQ
  | finite q => finite (-q)
  | posInf => negInf
  | negInf => posInf
  | nan => nan

/-- IEEE addition (exact on finite values; see modelling conventions). -/
def add : FloatQ → FloatQ → FloatQ
  | nan, _ => nan
  | _, nan => nan
  | posInf, negInf => nan
  | negInf, posInf => nan
  | posInf, _ => posInf
  | _, posInf => posInf
  | negInf, _ => negInf
  | _, negInf => negInf
  | finite q, finite r => finite (q + r)

/-- IEEE subtraction, as addition of the negation. -/
def sub (x y : FloatQ) : FloatQ :=
  x.add y.neg

/-- IEEE multiplication (exact on finite values; 0 × ∞ is NaN). -/
def mul : FloatQ → FloatQ → FloatQ
  | nan, _ => nan
  | _, nan => nan
  | posInf, posInf => posInf
  | posInf, negInf => negInf
  | negInf, posInf => negInf
  | negInf, negInf => posInf
  | posInf, finite q => if q = 0 then nan else if 0 < q then posInf else negInf
  | negInf, finite q => if q = 0 then nan else if 0 < q then negInf else posInf
  | finite q, posInf => if q = 0 then nan else if 0 < q then posInf else negInf
  | finite q, negInf => if q = 0 then nan else if 0 < q then negInf else posInf
  | finite q, finite r => finite (q * r)

/-- IEEE strict less-than: false whenever either operand is NaN. -/
def lt : FloatQ → FloatQ → Bool
  | nan, _ => false
  | _, nan => false
  | negInf, negInf => false
  | negInf, _ => true
  | _, negInf => false
  | posInf, _ => false
  | _, posInf => true
  | finite q, finite r => decide (q < r)

/-- IEEE less-or-equal: false whenever either operand is NaN. -/
def fle : FloatQ → FloatQ → Bool
  | nan, _ => false
  | _, nan => false
  | negInf, _ => true
  | _, negInf => false
  | _, posInf => true
  | posInf, _ => false
  | finite q, finite r => decide (q ≤ r)

/-- IEEE equality: false whenever either operand is NaN. -/
def beq : FloatQ → FloatQ → Bool
  | nan, _ => false
  | _, nan => false
  | posInf, posInf => true
  | negInf, negInf => true
  | finite q, finite r => decide (q = r)
  | _, _ => false

end FloatQ

/-- Coordinate layouts of go-geom that this package uses.  `NoLayout` is the
zero layout a record keeps when its shape type is not one of the recognised
codes. -/
inductive Layout where
  | noLayout
  | xy
  | xym
  | xyzm
deriving DecidableEq, Repr

/-- `geom.Layout.Stride`: number of float components per point. -/
def Layout.stride : Layout → Nat
  | .noLayout => 0
  | .xy => 2
  | .xym => 3
  | .xyzm => 4

/-- `geom.Layout.MIndex`: component slot of the M value.  go-geom returns -1
for layouts without M; the decoder only calls this for XYM and XYZM, so the
other cases are unreachable and modelled as 0. -/
def Layout.mIndex : Layout → Nat
  | .xym => 2
  | .xyzm => 3
  | _ => 0

/-- `geom.Layout.ZIndex`: component slot of the Z value.  Only called for
XYZM; other cases unreachable, modelled as 0. -/
def Layout.zIndex : Layout → Nat
  | .xyzm => 2
  | _ => 0

/-- Total access into a flat coordinate buffer at a (Go `int`) index,
reading 0 out of range.  In Go an out-of-range index panics; every call the
decoder makes stays in range (the ends table is bounded by
`stride * numPoints = len(flatCoords)` and ring processing rejects
non-positive ranges before reading). -/
def fcGet (flatCoords : List FloatQ) (i : Int) : FloatQ :=
  if 0 ≤ i then flatCoords.getD i.toNat (.finite 0) else .finite 0

/-- Loop body of `doubleArea`: `for i := offset + stride; i < end; i += stride`
accumulating `(fc[i+1] - fc[i+1-stride]) * (fc[i] + fc[i-stride])`.
The first argument is recursion fuel: each iteration shrinks `endI - i` by
`stride ≥ 1` (the guard `0 < stride` holds at every call the decoder makes,
with stride 2, 3 or 4; with stride ≤ 0 the Go loop would not terminate), so
`doubleArea` below always supplies enough fuel and the out-of-fuel base case
is unreachable. -/
def doubleAreaAux (flatCoords : List FloatQ) (stride endI : Int) :
    Nat → Int → FloatQ → FloatQ
  | 0, _i, acc => acc
  | fuel + 1, i, acc =>
    if 0 < stride ∧ i < endI then
      doubleAreaAux flatCoords stride endI fuel (i + stride)
        (acc.add (((fcGet flatCoords (i + 1)).sub (fcGet flatCoords (i + 1 - stride))).mul
          ((fcGet flatCoords i).add (fcGet flatCoords (i - stride)))))
    else acc

/-- `doubleArea` of shp.go: twice the signed area of the ring stored at
flat-coordinate offsets `[offset, end)` with the given stride (shoelace sum
over the X,Y components). -/
def doubleArea (flatCoords : List FloatQ) (offset endI stride : Int) : FloatQ :=
  doubleAreaAux flatCoords stride endI ((endI - (offset + stride)).toNat + 1)
    (offset + stride) (.finite 0)

/-- The loop of `makeMultiPolygonEndss`, iterating over `ends` (the suffix
still to process is the first list argument; `i` is its start index in
`ends`).  Returns the flushed groups and the start index `polygonOffset` of
the still-open group. -/
def mpeLoop (stride : Int) (flatCoords : List FloatQ) (ends : List Int) :
    List Int → Nat → Nat → Int → List (List Int) → Except ErrM (List (List Int) × Nat)
  | [], _i, polygonOffset, _offset, endss => .ok (endss, polygonOffset)
  | e :: rest, i, polygonOffset, offset, endss =>
    if (e - offset).tdiv stride < 4 then .error .tooFewPointsInRing
    else
      let da := doubleArea flatCoords offset e stride
      if da.beq (.finite 0) then .error .zeroAreaRing
      else if i ≠ 0 ∧ da.lt (.finite 0) then
        mpeLoop stride flatCoords ends rest (i + 1) i e
          (endss ++ [(ends.drop polygonOffset).take (i - polygonOffset)])
      else
        mpeLoop stride flatCoords ends rest (i + 1) polygonOffset e endss

/-- `makeMultiPolygonEndss` of shp.go: groups the ring end offsets of a
polygon record into per-polygon groups by the sign of each ring's double
area.  The first ring always opens the first group; a later ring with
negative double area opens a new group; otherwise the ring joins the current
group as a hole.  Rings with fewer than 4 points or exactly zero double area
are errors. -/
def makeMultiPolygonEndss (layout : Layout) (flatCoords : List FloatQ) (ends : List Int) :
    Except ErrM (List (List Int)) :=
  match mpeLoop (layout.stride : Int) flatCoords ends ends 0 0 0 [] with
  | .error e => .error e
  | .ok (endss, polygonOffset) =>
    .ok (if 0 < ends.length then endss ++ [ends.drop polygonOffset] else endss)

/-! ## The byte-slice cursor (`byteslicereader.go`)

A bounds-checked forward-only cursor over a byte slice with a sticky first
error (`errUnexpectedEndOfData` is `ErrM.unexpectedEndOfData`). -/

/-- The `byteSliceReader` struct: remaining bytes plus the sticky error. -/
structure ByteSliceReader where
  rest : List UInt8
  err : Option ErrM
deriving DecidableEq, Repr

/-- `newByteSliceReader`. -/
def newByteSliceReader (data : List UInt8) : ByteSliceReader :=
  { rest := data, err := none }

namespace ByteSliceReader

/-- `readUint32`: consume 4 bytes as a little-endian u32 (as a Go `int`);
on a sticky or fresh error return 0. -/
def readUint32 (r : ByteSliceReader) : Nat × ByteSliceReader :=
  if r.err.isSome then (0, r)
  else if r.rest.length < 4 then (0, { r with err := some .unexpectedEndOfData })
  else (leU32 r.rest 0, { r with rest := r.rest.drop 4 })

/-- `readFloat64Pair`: consume 16 bytes as two little-endian doubles. -/
def readFloat64Pair (r : ByteSliceReader) : (FloatQ × FloatQ) × ByteSliceReader :=
  if r.err.isSome then ((.finite 0, .finite 0), r)
  else if r.rest.length < 16 then ((.finite 0, .finite 0), { r with err := some .unexpectedEndOfData })
  else ((leF64 r.rest 0, leF64 r.rest 8), { r with rest := r.rest.drop 16 })

/-- `readFloat64s`: consume `8*n` bytes as `n` little-endian doubles;
returns the empty list (Go `nil`) on error. -/
def readFloat64s (r : ByteSliceReader) (n : Nat) : List FloatQ × ByteSliceReader :=
  if r.err.isSome then ([], r)
  else if r.rest.length < 8 * n then ([], { r with err := some .unexpectedEndOfData })
  else ((List.range n).map fun i => leF64 r.rest (8 * i),
    { r with rest := r.rest.drop (8 * n) })

/-- `readOrdinates`: consume `8*n` bytes as `n` doubles, writing the i-th
into slot `i*stride + index` of the flat coordinate buffer.  `List.set`
ignores out-of-range writes; the decoder always passes a buffer of length
`stride * n` so every write is in range (out of range Go would panic). -/
def readOrdinates (r : ByteSliceReader) (flatCoords : List FloatQ) (n : Nat) (layout : Layout)
    (index : Nat) : List FloatQ × ByteSliceReader :=
  if r.err.isSome then (flatCoords, r)
  else if r.rest.length < 8 * n then (flatCoords, { r with err := some .unexpectedEndOfData })
  else
    let stride := layout.stride
    ((List.range n).foldl (fun fc i => fc.set (i * stride + index) (leF64 r.rest (8 * i)))
        flatCoords,
      { r with rest := r.rest.drop (8 * n) })

/-- `readXYs`: consume `16*n` bytes as `n` interleaved X,Y pairs, writing
them into slots `i*stride` and `i*stride + 1` of the flat coordinate
buffer. -/
def readXYs (r : ByteSliceReader) (flatCoords : List FloatQ) (n : Nat) (layout : Layout) :
    List FloatQ × ByteSliceReader :=
  if r.err.isSome then (flatCoords, r)
  else if r.rest.length < 16 * n then (flatCoords, { r with err := some .unexpectedEndOfData })
  else
    let stride := layout.stride
    ((List.range n).foldl
        (fun fc i =>
          (fc.set (i * stride) (leF64 r.rest (16 * i))).set (i * stride + 1)
            (leF64 r.rest (16 * i + 8)))
        flatCoords,
      { r with rest := r.rest.drop (16 * n) })

/-- The loop of `readEnds` over parts i = 1 .. numParts-1 (the second
argument counts the remaining iterations, `numParts - i`): each part is
`stride * u32` and must be at most `maxPart`; on violation the Go code sets
the sticky error (`fmt.Errorf("%d: invalid part", part)`) and returns nil. -/
def readEndsLoop (rest : List UInt8) (stride maxPart : Int) :
    Nat → Nat → List Int → Option (List Int)
  | _i, 0, ends => some ends
  | i, cnt + 1, ends =>
    let part : Int := stride * leU32 rest (4 * i)
    if maxPart < part then none
    else readEndsLoop rest stride maxPart (i + 1) cnt (ends ++ [part])

/-- `readEnds`: read the ring-end-offset table.  Note the Go code's quirks,
modelled faithfully: when fewer than `4*numParts` bytes remain it sets the
sticky error but does NOT return, and it never checks that the table is
monotonic.  The unconditional 4-byte reads after the length check would be
out of range in Go only on paths unreachable from `ReadSHPRecord` (which
always supplies at least `4*numParts` bytes); `leU32` reads 0 there. -/
def readEnds (r : ByteSliceReader) (layout : Layout) (numParts numPoints : Nat) :
    List Int × ByteSliceReader :=
  if r.err.isSome then ([], r)
  else
    let r1 := if r.rest.length < 4 * numParts then { r with err := some .unexpectedEndOfData }
      else r
    if leU32 r.rest 0 ≠ 0 then ([], { r1 with err := some .invalidPart })
    else
      let stride : Int := layout.stride
      let maxPart : Int := stride * numPoints
      match readEndsLoop r.rest stride maxPart 1 (numParts - 1) [] with
      | none => ([], { r1 with err := some .invalidPart })
      | some ends => (ends ++ [maxPart], { r1 with rest := r1.rest.drop (4 * numParts) })

end ByteSliceReader

/-! ## Shape types and records (`shapefile.go`, `shp.go`) -/

/-- `headerSize`: the fixed 100-byte .shp/.shx header length. -/
def headerSize : Nat := 100

/-- `fileCode`: the big-endian magic number at offset 0. -/
def fileCode : Nat := 9994

/-- `version`: the little-endian version field at offset 28. -/
def version : Nat := 1000

def ShapeTypeNull : Nat := 0
def ShapeTypePoint : Nat := 1
def ShapeTypePolyLine : Nat := 3
def ShapeTypePolygon : Nat := 5
def ShapeTypeMultiPoint : Nat := 8
def ShapeTypePointZ : Nat := 11
def ShapeTypePolyLineZ : Nat := 13
def ShapeTypePolygonZ : Nat := 15
def ShapeTypeMultiPointZ : Nat := 18
def ShapeTypePointM : Nat := 21
def ShapeTypePolyLineM : Nat := 23
def ShapeTypePolygonM : Nat := 25
def ShapeTypeMultiPointM : Nat := 28
def ShapeTypeMultiPatch : Nat := 31

/-- `validShapeTypes`: the 14 recognised shape type codes. -/
def validShapeTypes : List Nat :=
  [ShapeTypeNull, ShapeTypePoint, ShapeTypePolyLine, ShapeTypePolygon, ShapeTypeMultiPoint,
    ShapeTypePointM, ShapeTypePolyLineM, ShapeTypePolygonM, ShapeTypeMultiPointM,
    ShapeTypePointZ, ShapeTypePolyLineZ, ShapeTypePolygonZ, ShapeTypeMultiPointZ,
    ShapeTypeMultiPatch]

/-- `unsupportedShapeTypes`: recognised but rejected (MultiPatch). -/
def unsupportedShapeTypes : List Nat :=
  [ShapeTypeMultiPatch]

/-- The layout derivation switch of `ReadSHPRecord`: unrecognised codes
(including MultiPatch) keep `geom.NoLayout`. -/
def layoutOf (shapeType : Nat) : Layout :=
  if shapeType = ShapeTypePoint ∨ shapeType = ShapeTypeMultiPoint ∨
      shapeType = ShapeTypePolyLine ∨ shapeType = ShapeTypePolygon then .xy
  else if shapeType = ShapeTypePointM ∨ shapeType = ShapeTypeMultiPointM ∨
      shapeType = ShapeTypePolyLineM ∨ shapeType = ShapeTypePolygonM then .xym
  else if shapeType = ShapeTypePointZ ∨ shapeType = ShapeTypeMultiPointZ ∨
      shapeType = ShapeTypePolyLineZ ∨ shapeType = ShapeTypePolygonZ then .xyzm
  else .noLayout

/-- Membership in the PolyLine or Polygon families (the fallthrough switch
that reads a part count). -/
def isPolyLineOrPolygon (shapeType : Nat) : Bool :=
  shapeType = ShapeTypePolyLine ∨ shapeType = ShapeTypePolyLineM ∨
    shapeType = ShapeTypePolyLineZ ∨ shapeType = ShapeTypePolygon ∨
    shapeType = ShapeTypePolygonM ∨ shapeType = ShapeTypePolygonZ

/-- A decoded geometry (`geom.T`): `GeomM.none` is the nil interface a
record keeps when no geometry constructor matches its shape type. -/
inductive GeomM where
  | none
  | point (layout : Layout) (flatCoords : List FloatQ)
  | multiPoint (layout : Layout) (flatCoords : List FloatQ)
  | multiLineString (layout : Layout) (flatCoords : List FloatQ) (ends : List Int)
  | multiPolygon (layout : Layout) (flatCoords : List FloatQ) (endss : List (List Int))
deriving DecidableEq, Repr

/-- A `geom.Bounds`: per-component minima and maxima in layout order. -/
structure BoundsM where
  layout : Layout
  min : List FloatQ
  max : List FloatQ
deriving DecidableEq, Repr

/-- A `SHPRecord`. -/
structure SHPRecordM where
  number : Nat
  contentLength : Nat
  shapeType : Nat
  bounds : Option BoundsM
  geom : GeomM
deriving DecidableEq, Repr

/-- `ReadSHPOptions`; a nil `*ReadSHPOptions` is `Option.none` at call
sites. -/
structure ReadSHPOptions where
  maxParts : Nat
  maxPoints : Nat
  maxRecordSize : Nat
deriving DecidableEq, Repr

/-- The guard pattern `options != nil && options.MaxX != 0 && v > options.MaxX`. -/
def optionExceeded (limit : Option Nat) (v : Nat) : Bool :=
  match limit with
  | none => false
  | some m => m ≠ 0 && m < v

/-- The part-count step of `ReadSHPRecord` (the fallthrough switch for the
PolyLine/Polygon families): read `numParts`, reject 0 and configured maxima,
and contribute `4 + 4*numParts` to the expected content length.  For other
shape types nothing is read and the contribution is 0. -/
def readPartsStep (shapeType : Nat) (r : ByteSliceReader) (options : Option ReadSHPOptions) :
    Except ErrM (Nat × ByteSliceReader × Nat) :=
  if isPolyLineOrPolygon shapeType then
    let s := r.readUint32
    if s.1 = 0 then .error .invalidNumberOfParts
    else if optionExceeded (options.map fun o => o.maxParts) s.1 then .error .tooManyParts
    else .ok (s.1, s.2, 4 + 4 * s.1)
  else .ok (0, r, 0)

/-- The per-layout point-data contribution to the expected content length
(the layout switch of `ReadSHPRecord`). -/
def layoutPointsLen (layout : Layout) (numPoints : Nat) : Nat :=
  match layout with
  | .xy => 8 * 2 * numPoints
  | .xym => 8 * 2 * numPoints + 8 * 2 + 8 * numPoints
  | .xyzm => 8 * 2 * numPoints + 8 * 2 + 8 * numPoints + 8 * 2 + 8 * numPoints
  | .noLayout => 0

/-- The bounds switch of `ReadSHPRecord`: construct the record bounds from
the min/max pairs read earlier and (for XYM/XYZM) read the trailing
M-range/M-values and Z-range/Z-values blocks.  Returns the bounds, the
updated flat coordinate buffer and the reader.  Note: no NoData
normalization happens here (unlike `parseSHxHeader`). -/
def readBoundsStep (layout : Layout) (r : ByteSliceReader) (flatCoords : List FloatQ)
    (numPoints : Nat) (minX minY maxX maxY : FloatQ) :
    Option BoundsM × List FloatQ × ByteSliceReader :=
  match layout with
  | .xy => (some ⟨.xy, [minX, minY], [maxX, maxY]⟩, flatCoords, r)
  | .xym =>
    let sM := r.readFloat64Pair
    let sOrd := sM.2.readOrdinates flatCoords numPoints .xym Layout.xym.mIndex
    (some ⟨.xym, [minX, minY, sM.1.1], [maxX, maxY, sM.1.2]⟩, sOrd.1, sOrd.2)
  | .xyzm =>
    let sZ := r.readFloat64Pair
    let sOrdZ := sZ.2.readOrdinates flatCoords numPoints .xyzm Layout.xyzm.zIndex
    let sM := sOrdZ.2.readFloat64Pair
    let sOrdM := sM.2.readOrdinates sOrdZ.1 numPoints .xyzm Layout.xyzm.mIndex
    (some ⟨.xyzm, [minX, minY, sZ.1.1, sM.1.1], [maxX, maxY, sZ.1.2, sM.1.2]⟩, sOrdM.1, sOrdM.2)
  | .noLayout => (none, flatCoords, r)

/-- The final geometry switch of `ReadSHPRecord`.  Shape types outside the
three multi families build no geometry (the nil `geom.T`). -/
def buildGeom (shapeType : Nat) (layout : Layout) (flatCoords : List FloatQ) (ends : List Int) :
    Except ErrM GeomM :=
  if shapeType = ShapeTypeMultiPoint ∨ shapeType = ShapeTypeMultiPointM ∨
      shapeType = ShapeTypeMultiPointZ then .ok (.multiPoint layout flatCoords)
  else if shapeType = ShapeTypePolyLine ∨ shapeType = ShapeTypePolyLineM ∨
      shapeType = ShapeTypePolyLineZ then .ok (.multiLineString layout flatCoords ends)
  else if shapeType = ShapeTypePolygon ∨ shapeType = ShapeTypePolygonM ∨
      shapeType = ShapeTypePolygonZ then
    match makeMultiPolygonEndss layout flatCoords ends with
    | .error e => .error e
    | .ok endss => .ok (.multiPolygon layout flatCoords endss)
  else .ok .none

/-- The body of `ReadSHPRecord` from the construction of the byte-slice
reader onwards (the part the Go source marks `FIXME factor out
ParseSHPRecord`): decode one record's content buffer. -/
def parseSHPRecordContent (recordNumber contentLength : Nat) (recordData : List UInt8)
    (options : Option ReadSHPOptions) : Except ErrM SHPRecordM :=
  let s1 := (newByteSliceReader recordData).readUint32
  let shapeType := s1.1
  let r1 := s1.2
  if shapeType = ShapeTypeNull then
    if contentLength ≠ 4 then .error .invalidContentLength
    else .ok ⟨recordNumber, contentLength, ShapeTypeNull, none, .none⟩
  else
    let layout := layoutOf shapeType
    if shapeType = ShapeTypePoint ∨ shapeType = ShapeTypePointM ∨ shapeType = ShapeTypePointZ then
      let s2 := r1.readFloat64s layout.stride
      if contentLength ≠ 4 + 8 * layout.stride then .error .invalidContentLength
      else .ok ⟨recordNumber, contentLength, shapeType, none, .point layout s2.1⟩
    else
      let s2 := r1.readFloat64Pair
      let s3 := s2.2.readFloat64Pair
      match readPartsStep shapeType s3.2 options with
      | .error e => .error e
      | .ok (numParts, r4, partsLen) =>
        let s5 := r4.readUint32
        let numPoints := s5.1
        let r5 := s5.2
        if optionExceeded (options.map fun o => o.maxPoints) numPoints then .error .tooManyPoints
        else if contentLength ≠ 4 + 8 * 4 + partsLen + 4 + layoutPointsLen layout numPoints then
          .error .invalidContentLength
        else
          let s6 := if isPolyLineOrPolygon shapeType then r5.readEnds layout numParts numPoints
            else ([], r5)
          let ends := s6.1
          let s7 := s6.2.readXYs (List.replicate (layout.stride * numPoints) (.finite 0))
            numPoints layout
          let s8 := readBoundsStep layout s7.2 s7.1 numPoints s2.1.1 s2.1.2 s3.1.1 s3.1.2
          match s8.2.2.err with
          | some e => .error e
          | none =>
            match buildGeom shapeType layout s8.2.1 ends with
            | .error e => .error e
            | .ok g => .ok ⟨recordNumber, contentLength, shapeType, s8.1, g⟩

/-- `readFull` of shx.go over a `bytes.Reader`-style stream: succeeds
consuming exactly `n` bytes when at least `n` remain; returns `io.EOF` when
the stream runs out first (note: also mid-buffer, because the final
`Read` returns `(0, io.EOF)` and the `err != nil` case fires before the
`n == 0` case); returns `io.ErrUnexpectedEOF` only when a read returns 0
bytes with a nil error, which for a byte stream happens only when `n = 0`
with bytes remaining. -/
def readFull (n : Nat) (s : List UInt8) : Except ErrM (List UInt8 × List UInt8) :=
  if n = 0 then
    if s.isEmpty then .ok ([], s) else .error .unexpectedEOF
  else if n ≤ s.length then .ok (s.take n, s.drop n)
  else .error .eof

/-- `ReadSHPRecord`: read one record (8-byte header, then the declared
content) from the stream; returns the record and the remaining stream. -/
def ReadSHPRecord (s : List UInt8) (options : Option ReadSHPOptions) :
    Except ErrM (SHPRecordM × List UInt8) :=
  match readFull 8 s with
  | .error e => .error e
  | .ok (recordHeaderData, s1) =>
    let recordNumber := beU32 recordHeaderData 0
    let contentLength := 2 * beU32 recordHeaderData 4
    if contentLength < 4 then .error .contentLengthTooShort
    else if optionExceeded (options.map fun o => o.maxRecordSize) contentLength then
      .error .contentLengthTooLarge
    else
      match readFull contentLength s1 with
      | .error e => .error e
      | .ok (recordData, s2) =>
        match parseSHPRecordContent recordNumber contentLength recordData options with
        | .error e => .error e
        | .ok record => .ok (record, s2)

/-! ## The shared .shp/.shx header (`shxheader.go`) -/

/-- The exact float64 value of the Go constant `-1e38`
(= -5293955920339377 × 2^74). -/
def negOneE38 : FloatQ :=
  .finite (-((5293955920339377 : ℚ) * twoPow 74))

/-- `NoData`: a bounds component at or below -1e38 denotes no data.
(IEEE `<=`, hence false on NaN.) -/
def NoData (x : FloatQ) : Bool :=
  x.fle negOneE38

/-- An `SHxHeader`. -/
structure SHxHeaderM where
  shapeType : Nat
  bounds : Option BoundsM
deriving DecidableEq, Repr

/-- `parseSHxHeader`: validate the 100-byte header and construct the
header bounds with NoData normalization. -/
def parseSHxHeader (data : List UInt8) (fileLength : Int) : Except ErrM SHxHeaderM :=
  if data.length ≠ headerSize then .error .invalidHeaderLength
  else if beU32 data 0 ≠ fileCode then .error .invalidFileCode
  else if 2 * (beU32 data 24 : Int) ≠ fileLength then .error .invalidFileLength
  else if leU32 data 28 ≠ version then .error .invalidHeaderVersion
  else
    let shapeType := leU32 data 32
    if shapeType ∉ validShapeTypes then .error .invalidShapeType
    else if shapeType ∈ unsupportedShapeTypes then .error .unsupportedShapeType
    else
      let minX0 := leF64 data 36
      let minY0 := leF64 data 44
      let maxX0 := leF64 data 52
      let maxY0 := leF64 data 60
      let minZ0 := leF64 data 68
      let maxZ0 := leF64 data 76
      let minM0 := leF64 data 84
      let maxM0 := leF64 data 92
      let minX := if NoData minX0 then .posInf else minX0
      let minY := if NoData minY0 then .posInf else minY0
      let maxX := if NoData maxX0 then .negInf else maxX0
      let maxY := if NoData maxY0 then .negInf else maxY0
      let bounds : Option BoundsM :=
        if shapeType = ShapeTypePoint ∨ shapeType = ShapeTypeMultiPoint ∨
            shapeType = ShapeTypePolyLine ∨ shapeType = ShapeTypePolygon then
          some ⟨.xy, [minX, minY], [maxX, maxY]⟩
        else if shapeType = ShapeTypePointM ∨ shapeType = ShapeTypeMultiPointM ∨
            shapeType = ShapeTypePolyLineM ∨ shapeType = ShapeTypePolygonM then
          let minM := if NoData minM0 then .posInf else minM0
          let maxM := if NoData maxM0 then .negInf else maxM0
          some ⟨.xym, [minX, minY, minM], [maxX, maxY, maxM]⟩
        else if shapeType = ShapeTypePointZ ∨ shapeType = ShapeTypeMultiPointZ ∨
            shapeType = ShapeTypePolyLineZ ∨ shapeType = ShapeTypePolygonZ then
          let minM := if NoData minM0 then .posInf else minM0
          let maxM := if NoData maxM0 then .negInf else maxM0
          let minZ := if NoData minZ0 then .posInf else minZ0
          let maxZ := if NoData maxZ0 then .negInf else maxZ0
          some ⟨.xyzm, [minX, minY, minZ, minM], [maxX, maxY, maxZ, maxM]⟩
        else none
      .ok ⟨shapeType, bounds⟩

/-- `readSHxHeader`: length pre-check, then read and parse the 100-byte
header; returns the header and the remaining stream. -/
def readSHxHeader (s : List UInt8) (fileLength : Int) :
    Except ErrM (SHxHeaderM × List UInt8) :=
  if fileLength < (headerSize : Int) then .error .fileTooShort
  else
    match readFull headerSize s with
    | .error e => .error e
    | .ok (data, rest) =>
      match parseSHxHeader data fileLength with
      | .error e => .error e
      | .ok h => .ok (h, rest)

/-- The record loop of `ReadSHP`: read records sequentially, treating
`io.EOF` from a record read as normal termination and checking the 1-based
record numbering.  The first argument is recursion fuel: by
`ReadSHPRecord_rest_length_lt` every successful record read strictly
shrinks the stream, so `ReadSHP` (which supplies `length + 1`) never
reaches the out-of-fuel base case. -/
def readSHPRecords (options : Option ReadSHPOptions) :
    Nat → Nat → List UInt8 → Except ErrM (List SHPRecordM)
  | 0, _recordNumber, _s => .error .unexpectedEOF
  | fuel + 1, recordNumber, s =>
    match ReadSHPRecord s options with
    | .error .eof => .ok []
    | .error e => .error e
    | .ok (record, rest) =>
      if record.number ≠ recordNumber then .error .invalidRecordNumber
      else
        match readSHPRecords options fuel (recordNumber + 1) rest with
        | .error e => .error e
        | .ok records => .ok (record :: records)

/-- A `SHP`. -/
structure SHPM where
  header : SHxHeaderM
  records : List SHPRecordM
deriving DecidableEq, Repr

/-- `ReadSHP`: read the 100-byte header, then all records. -/
def ReadSHP (s : List UInt8) (fileLength : Int) (options : Option ReadSHPOptions) :
    Except ErrM SHPM :=
  match readSHxHeader s fileLength with
  | .error e => .error e
  | .ok (header, rest) =>
    match readSHPRecords options (rest.length + 1) 1 rest with
    | .error e => .error e
    | .ok records => .ok ⟨header, records⟩

/-! ## The .dbf attribute-table decoder (`dbf.go`)

`ReadDBF` can return a value, an error, or — because the broken-field check
dereferences the `options` pointer — panic with a nil-pointer dereference
when `options` is nil and a field fails to parse.  `DBFResult` makes the
three outcomes explicit. -/

/-- Outcome of a Go function call that can also panic. -/
inductive DBFResult (α : Type) where
  | ok (a : α)
  | err (e : ErrM)
  | panic
deriving DecidableEq, Repr

/-- `dbfHeaderLength`. -/
def dbfHeaderLength : Nat := 32

/-- `dbfFieldDescriptorSize`. -/
def dbfFieldDescriptorSize : Nat := 32

/-- A `DBFHeader`.  `time.Time` is modelled by the raw year/month/day
arguments passed to `time.Date` (whose calendar normalization is not
modelled; no claim depends on the date value). -/
structure DBFHeaderM where
  version : Nat
  memo : Bool
  dbt : Bool
  lastUpdateYear : Int
  lastUpdateMonth : Int
  lastUpdateDay : Int
  records : Nat
  headerSize : Nat
  recordSize : Nat
deriving DecidableEq, Repr

/-- A `DBFFieldDescriptor`. -/
structure DBFFieldDescriptorM where
  name : List UInt8
  fieldType : UInt8
  length : Nat
  decimalCount : Nat
  workAreaID : UInt8
  setFields : UInt8
deriving DecidableEq, Repr, Inhabited

/-- A decoded DBF field value (`any` in Go): nil, string, memo, bool,
date, int, or float64. -/
inductive DBFValueM where
  | vNil
  | vStr (s : List UInt8)
  | vMemo (s : List UInt8)
  | vBool (b : Bool)
  | vDate (y m d : Int)
  | vInt (n : Int)
  | vFloat (x : FloatQ)
deriving DecidableEq, Repr

/-- A `DBF`: header, field descriptors, and records (a nil record is a
soft-deleted one). -/
structure DBFM where
  header : DBFHeaderM
  fieldDescriptors : List DBFFieldDescriptorM
  records : List (Option (List DBFValueM))
deriving DecidableEq, Repr

/-- `ReadDBFOptions`; a nil `*ReadDBFOptions` is `Option.none` at call
sites. -/
structure ReadDBFOptions where
  maxHeaderSize : Nat
  maxRecordSize : Nat
  maxRecords : Nat
  skipBrokenFields : Bool
  charset : String
deriving DecidableEq, Repr

/-- A text decoder.  ISO 8859-1 decoding is total and the behaviour of
custom charsets comes from an external registry, so the decoder itself
carries no modelled behaviour. -/
inductive DecoderM where
  | iso8859_1
  | custom (name : String)
deriving DecidableEq, Repr

/-- Modelled from the spec: the charset registry
(`golang.org/x/net/html/charset.Lookup`) is external to this repository; it
is modelled as always finding the requested charset.  No claim exercises
the charset override. -/
def lookupCharset (name : String) : Option DecoderM :=
  some (.custom name)

/-- The decoder selection of `ReadDBF`: a non-empty `options.Charset` is
looked up, otherwise ISO 8859-1. -/
def dbfDecoder (options : Option ReadDBFOptions) : Option DecoderM :=
  match options with
  | some o => if o.charset ≠ "" then lookupCharset o.charset else some .iso8859_1
  | none => some .iso8859_1

/-- `TrimTrailingZeros`. -/
def TrimTrailingZeros (data : List UInt8) : List UInt8 :=
  ((data.reverse.dropWhile fun b => b = 0)).reverse

/-- ASCII whitespace, the relevant fragment of `unicode.IsSpace` for
`bytes.TrimSpace`.  (Multi-byte UTF-8 whitespace sequences, which Go would
also trim, are not modelled; single bytes ≥ 0x80 are invalid UTF-8 and Go
keeps them, as does this model.) -/
def isASCIISpace (c : UInt8) : Bool :=
  c = 32 ∨ c = 9 ∨ c = 10 ∨ c = 11 ∨ c = 12 ∨ c = 13

/-- `bytes.TrimSpace`. -/
def bytesTrimSpace (data : List UInt8) : List UInt8 :=
  ((data.dropWhile isASCIISpace).reverse.dropWhile isASCIISpace).reverse

/-- ASCII decimal digit. -/
def isDigit (c : UInt8) : Bool :=
  48 ≤ c.toNat ∧ c.toNat ≤ 57

/-- ASCII hex digit. -/
def isHexDigit (c : UInt8) : Bool :=
  isDigit c ∨ (97 ≤ c.toNat ∧ c.toNat ≤ 102) ∨ (65 ≤ c.toNat ∧ c.toNat ≤ 70)

/-- Lower-case an ASCII byte. -/
def toLower (c : UInt8) : UInt8 :=
  if 65 ≤ c.toNat ∧ c.toNat ≤ 90 then c + 32 else c

/-- Value of a decimal digit string (0 for the empty string). -/
def digitsVal (l : List UInt8) : Nat :=
  l.foldl (fun acc c => 10 * acc + (c.toNat - 48)) 0

/-- Value of a hex digit string (0 for the empty string). -/
def hexDigitsVal (l : List UInt8) : Nat :=
  l.foldl
    (fun acc c =>
      16 * acc +
        (if c.toNat ≤ 57 then c.toNat - 48
          else if 97 ≤ c.toNat then c.toNat - 87 else c.toNat - 55))
    0

/-- `strconv.ParseInt(s, 10, 64)`: optional sign, one or more decimal
digits, result within int64 range (out of range is an error for the
callers here).  Underscores are only accepted by Go for base 0, not
base 10. -/
def goParseInt (s : List UInt8) : Option Int :=
  match s with
  | [] => none
  | c :: rest =>
    let signDigits : Bool × List UInt8 :=
      if c = 43 then (false, rest) else if c = 45 then (true, rest) else (false, s)
    let digits := signDigits.2
    if digits.isEmpty ∨ ¬digits.all isDigit then none
    else
      let v := digitsVal digits
      if signDigits.1 then (if v ≤ 2 ^ 63 then some (-(v : Int)) else none)
      else (if v ≤ 2 ^ 63 - 1 then some (v : Int)   else none)

/-- Signed decimal exponent of a float literal: optional sign then one or
more digits. -/
def parseSignedDigits (l : List UInt8) : Option Int :=
  match l with
  | [] => none
  | c :: rest =>
    let signDigits : Bool × List UInt8 :=
      if c = 43 then (false, rest) else if c = 45 then (true, rest) else (false, l)
    let digits := signDigits.2
    if digits.isEmpty ∨ ¬digits.all isDigit then none
    else some (if signDigits.1 then -(digitsVal digits : Int) else (digitsVal digits : Int))

/-- Decimal mantissa: digits with at most one dot, at least one digit.
Returns the digit value and the number of fractional digits. -/
def parseDecMantissa (l : List UInt8) : Option (Nat × Nat) :=
  let ip := l.takeWhile isDigit
  let rest := l.dropWhile isDigit
  match rest with
  | [] => if ip.isEmpty then none else some (digitsVal ip, 0)
  | c :: rest2 =>
    if c = 46 ∧ rest2.all isDigit ∧ ¬(ip.isEmpty ∧ rest2.isEmpty) then
      some (digitsVal (ip ++ rest2), rest2.length)
    else none

/-- Hex-float mantissa: hex digits with at most one dot, at least one
digit.  Returns the digit value and the number of fractional hex digits. -/
def parseHexMantissa (l : List UInt8) : Option (Nat × Nat) :=
  let ip := l.takeWhile isHexDigit
  let rest := l.dropWhile isHexDigit
  match rest with
  | [] => if ip.isEmpty then none else some (hexDigitsVal ip, 0)
  | c :: rest2 =>
    if c = 46 ∧ rest2.all isHexDigit ∧ ¬(ip.isEmpty ∧ rest2.isEmpty) then
      some (hexDigitsVal (ip ++ rest2), rest2.length)
    else none

/-- The unsigned body of a float literal as an exact rational: either a
decimal literal with optional `e`/`E` exponent, or a `0x` hex literal with
its mandatory `p`/`P` exponent. -/
def parseFloatBody (body : List UInt8) : Option ℚ :=
  match body with
  | 48 :: x :: rest =>
    if toLower x = 120 then
      let mant := rest.takeWhile fun c => toLower c ≠ 112
      let pPart := rest.dropWhile fun c => toLower c ≠ 112
      match pPart with
      | [] => none
      | _p :: expPart =>
        match parseHexMantissa mant, parseSignedDigits expPart with
        | some mv, some e => some ((mv.1 : ℚ) * (2 : ℚ) ^ (e - 4 * (mv.2 : Int)))
        | _, _ => none
    else parseFloatBodyDec body
  | _ => parseFloatBodyDec body
where
  /-- Decimal branch: mantissa then optional exponent. -/
  parseFloatBodyDec (body : List UInt8) : Option ℚ :=
    let mant := body.takeWhile fun c => toLower c ≠ 101
    let ePart := body.dropWhile fun c => toLower c ≠ 101
    match parseDecMantissa mant with
    | none => none
    | some mv =>
      match ePart with
      | [] => some ((mv.1 : ℚ) * (10 : ℚ) ^ (-(mv.2 : Int)))
      | _e :: expPart =>
        match parseSignedDigits expPart with
        | none => none
        | some e => some ((mv.1 : ℚ) * (10 : ℚ) ^ (e - (mv.2 : Int)))

/-- Smallest magnitude that overflows float64 under round-to-nearest-even
(= (2^54 - 1) × 2^970, the midpoint between the largest finite double and
2^1024). -/
def overflowBoundQ : ℚ :=
  ((2 ^ 54 - 1 : ℕ) : ℚ) * twoPow 970

/-- Largest magnitude that underflows to zero under round-to-nearest-even
(= 2^-1075, half the smallest subnormal). -/
def underflowBoundQ : ℚ :=
  (twoPow 1075)⁻¹

/-- `strconv.ParseFloat(s, 64)`: signed `inf`/`infinity` and unsigned
`nan` (case-insensitive), or a decimal/hex float literal.  Values whose
exact magnitude rounds to ±Inf or (non-zero) to 0 produce `ErrRange`,
which the callers here treat as failure.  Finite results are idealised as
exact rationals (real ParseFloat rounds to the nearest double);
underscore-separated literal forms are not modelled.  `none` is failure. -/
def goParseFloat (s : List UInt8) : Option FloatQ :=
  match s with
  | [] => none
  | c :: rest =>
    let signBody : Bool × List UInt8 :=
      if c = 43 then (false, rest) else if c = 45 then (true, rest) else (false, s)
    let body := signBody.2
    let lower := body.map toLower
    if lower = [105, 110, 102] ∨ lower = [105, 110, 102, 105, 110, 105, 116, 121] then
      some (if signBody.1 then .negInf else .posInf)
    else if s.map toLower = [110, 97, 110] then some .nan
    else
      match parseFloatBody body with
      | none => none
      | some qAbs =>
        let q := if signBody.1 then -qAbs else qAbs
        if overflowBoundQ ≤ |q| then none
        else if q ≠ 0 ∧ |q| ≤ underflowBoundQ then none
        else some (.finite q)

/-- `parseCharacter`: trim and decode.  ISO 8859-1 decoding is total and
modelled as the identity on bytes; the decoder is never nil in `ReadDBF`,
so the nil-decoder error path is unreachable. -/
def parseCharacter (data : List UInt8) (_dec : DecoderM) : DBFValueM × Option ErrM :=
  (.vStr (bytesTrimSpace (TrimTrailingZeros data)), none)

/-- `parseDate`: an 8-byte `YYYYMMDD` field.  On failure Go returns the
zero `time.Time` (year 1, January 1) together with the error. -/
def parseDate (data : List UInt8) : DBFValueM × Option ErrM :=
  if data.length ≠ 8 then (.vDate 1 1 1, some .invalidDateFieldLength)
  else
    match goParseInt (data.take 4) with
    | none => (.vDate 1 1 1, some .invalidYear)
    | some y =>
      match goParseInt ((data.drop 4).take 2) with
      | none => (.vDate 1 1 1, some .invalidMonth)
      | some m =>
        match goParseInt (data.drop 6) with
        | none => (.vDate 1 1 1, some .invalidDay)
        | some d => (.vDate y m d, none)

/-- `parseFloat`: empty after trimming is nil; otherwise `ParseFloat`. -/
def parseFloat (data : List UInt8) : DBFValueM × Option ErrM :=
  let s := bytesTrimSpace (TrimTrailingZeros data)
  if s.isEmpty then (.vNil, none)
  else
    match goParseFloat s with
    | some x => (.vFloat x, none)
    | none => (.vNil, some .invalidNumeric)

/-- `parseLogical`: one byte, `?` is nil, `F/N/f/n` false, `T/Y/t/y`
true, anything else an error. -/
def parseLogical (data : List UInt8) : DBFValueM × Option ErrM :=
  if data.length ≠ 1 then (.vNil, some .invalidLogical)
  else
    let c := byteAt data 0
    if c = 63 then (.vNil, none)
    else if c = 70 ∨ c = 78 ∨ c = 102 ∨ c = 110 then (.vBool false, none)
    else if c = 84 ∨ c = 89 ∨ c = 116 ∨ c = 121 then (.vBool true, none)
    else (.vNil, some .invalidLogical)

/-- `parseMemo`: the trimmed bytes. -/
def parseMemo (data : List UInt8) : DBFValueM :=
  .vMemo (bytesTrimSpace (TrimTrailingZeros data))

/-- `parseNumber`: empty is nil; with a decimal point, `ParseFloat`;
otherwise `ParseInt` (converted to Go `int`, same value). -/
def parseNumber (data : List UInt8) : DBFValueM × Option ErrM :=
  let s := bytesTrimSpace (TrimTrailingZeros data)
  if s.isEmpty then (.vNil, none)
  else if (46 : UInt8) ∈ s then
    match goParseFloat s with
    | some x => (.vFloat x, none)
    | none => (.vNil, some .invalidNumeric)
  else
    match goParseInt s with
    | some n => (.vInt n, none)
    | none => (.vNil, some .invalidNumeric)

/-- `(*DBFFieldDescriptor).ParseRecord`: dispatch on the field type tag.
Returns the Go pair (value, error); on error the value is the zero value
the specific parser returned. -/
def ParseRecord (d : DBFFieldDescriptorM) (data : List UInt8) (dec : DecoderM) :
    DBFValueM × Option ErrM :=
  if d.fieldType = 67 then parseCharacter data dec
  else if d.fieldType = 68 then parseDate data
  else if d.fieldType = 70 then parseFloat data
  else if d.fieldType = 76 then parseLogical data
  else if d.fieldType = 77 then (parseMemo data, none)
  else if d.fieldType = 78 then parseNumber data
  else (.vNil, some .unsupportedFieldType)

/-- `ParseDBFHeader`: decode and validate the 32-byte header.  The
version is the low 3 bits of byte 0; the memo (0x8) and DBT (0x80) flag
bits are rejected; counts and sizes are checked against the configured
maxima. -/
def ParseDBFHeader (data : List UInt8) (options : Option ReadDBFOptions) :
    Except ErrM DBFHeaderM :=
  if data.length ≠ dbfHeaderLength then .error .invalidHeaderLength
  else
    let b0 := (byteAt data 0).toNat
    if b0 % 8 ≠ 3 then .error .unsupportedVersion
    else if b0 / 8 % 2 = 1 then .error .memoFilesNotSupported
    else if b0 / 128 % 2 = 1 then .error .dbtFilesNotSupported
    else
      let records := leU32 data 4
      if optionExceeded (options.map fun o => o.maxRecords) records then .error .tooManyRecords
      else
        let hdrSize := leU16 data 8
        if optionExceeded (options.map fun o => o.maxHeaderSize) hdrSize then
          .error .headerTooLarge
        else
          let recordSize := leU16 data 10
          if optionExceeded (options.map fun o => o.maxRecordSize) recordSize then
            .error .recordsTooLarge
          else
            .ok ⟨b0 % 8, false, false, ((byteAt data 1).toNat : Int) + 1900,
              ((byteAt data 2).toNat : Int), ((byteAt data 3).toNat : Int),
              records, hdrSize, recordSize⟩

/-- `knownFieldTypes`: C, D, F, L, M, N. -/
def knownFieldTypes : List UInt8 :=
  [67, 68, 70, 76, 77, 78]

/-- The field-descriptor loop of `ReadDBF`: read 32-byte descriptors until
a 0x0D terminator byte appears in the first slot.  The first argument is
recursion fuel: every iteration that recurses consumes 32 bytes of the
stream, so `ReadDBF` (which supplies `length + 1`) never reaches the
out-of-fuel base case. -/
def readDBFFieldDescriptors :
    Nat → List UInt8 → List DBFFieldDescriptorM →
      Except ErrM (List DBFFieldDescriptorM × List UInt8)
  | 0, _s, _acc => .error .unexpectedEOF
  | fuel + 1, s, acc =>
    match readFull 1 s with
    | .error e => .error e
    | .ok (b, s1) =>
      if byteAt b 0 = 13 then .ok (acc, s1)
      else
        match readFull 31 s1 with
        | .error e => .error e
        | .ok (tail31, s2) =>
          let fdd := b ++ tail31
          let fieldType := byteAt fdd 11
          if fieldType ∉ knownFieldTypes then .error .invalidFieldType
          else
            readDBFFieldDescriptors fuel s2
              (acc ++ [⟨TrimTrailingZeros (fdd.take 11), fieldType, (byteAt fdd 16).toNat, 0,
                byteAt fdd 20, byteAt fdd 23⟩])

/-- The per-record field loop of `ReadDBF`: walk the descriptors, slicing
`recordData[offset : offset+length]` for each.  On a field parse error:
with nil options the Go code dereferences `options.SkipBrokenFields` and
panics; with `SkipBrokenFields` false it aborts the table; with it true it
keeps the zero value and continues. -/
def readDBFFields (options : Option ReadDBFOptions) (dec : DecoderM)
    (recordData : List UInt8) : List DBFFieldDescriptorM → Nat → DBFResult (List DBFValueM)
  | [], _ => .ok []
  | d :: ds, offset =>
    let fieldData := (recordData.drop offset).take d.length
    let pr := ParseRecord d fieldData dec
    let rest := readDBFFields options dec recordData ds (offset + d.length)
    match pr.2 with
    | some e =>
      match options with
      | none => .panic
      | some o =>
        if !o.skipBrokenFields then .err (.field e)
        else
          match rest with
          | .ok vs => .ok (pr.1 :: vs)
          | .err e2 => .err e2
          | .panic => .panic
    | none =>
      match rest with
      | .ok vs => .ok (pr.1 :: vs)
      | .err e2 => .err e2
      | .panic => .panic

/-- One record of the record loop of `ReadDBF`: dispatch on the deletion
flag byte — space (0x20) decodes the fields, asterisk (0x2A) is a
soft-deleted record (nil), anything else is fatal. -/
def readDBFRecord (options : Option ReadDBFOptions) (dec : DecoderM)
    (descs : List DBFFieldDescriptorM) (recordData : List UInt8) :
    DBFResult (Option (List DBFValueM)) :=
  if byteAt recordData 0 = 32 then
    match readDBFFields options dec recordData descs 1 with
    | .ok record => .ok (some record)
    | .err e => .err e
    | .panic => .panic
  else if byteAt recordData 0 = 42 then .ok none
  else .err .invalidRecordFlag

/-- The record loop of `ReadDBF`: `header.Records` times, read
`header.RecordSize` bytes and decode one record. -/
def readDBFRecords (options : Option ReadDBFOptions) (dec : DecoderM)
    (descs : List DBFFieldDescriptorM) (recordSize : Nat) :
    Nat → List UInt8 → DBFResult (List (Option (List DBFValueM)) × List UInt8)
  | 0, s => .ok ([], s)
  | n + 1, s =>
    match readFull recordSize s with
    | .error e => .err e
    | .ok (recordData, s1) =>
      match readDBFRecord options dec descs recordData with
      | .err e => .err e
      | .panic => .panic
      | .ok rec =>
        match readDBFRecords options dec descs recordSize n s1 with
        | .ok (recs, s2) => .ok (rec :: recs, s2)
        | .err e => .err e
        | .panic => .panic

/-- Sum of the declared field byte lengths. -/
def sumFieldLengths (descs : List DBFFieldDescriptorM) : Nat :=
  descs.foldl (fun acc d => acc + d.length) 0

/-- `ReadDBF`: header, field descriptors, the record-size cross-check,
the records, and the optional 0x1A end-of-file marker (whose absence at
true end of stream is tolerated). -/
def ReadDBF (s : List UInt8) (_size : Int) (options : Option ReadDBFOptions) :
    DBFResult DBFM :=
  match readFull dbfHeaderLength s with
  | .error e => .err e
  | .ok (headerData, s1) =>
    match ParseDBFHeader headerData options with
    | .error e => .err e
    | .ok header =>
      if header.version ≠ 3 then .err .unsupportedVersion
      else
        match readDBFFieldDescriptors (s1.length + 1) s1 [] with
        | .error e => .err e
        | .ok (fieldDescriptors, s2) =>
          if sumFieldLengths fieldDescriptors + 1 ≠ header.recordSize then
            .err .invalidTotalLengthOfFields
          else
            match dbfDecoder options with
            | none => .err .unknownCharset
            | some dec =>
              match readDBFRecords options dec fieldDescriptors header.recordSize
                  header.records s2 with
              | .err e => .err e
              | .panic => .panic
              | .ok (records, s3) =>
                match readFull 1 s3 with
                | .error .eof => .ok ⟨header, fieldDescriptors, records⟩
                | .error e => .err e
                | .ok (data, _s4) =>
                  if byteAt data 0 ≠ 26 then .err .invalidEndOfFileMarker
                  else .ok ⟨header, fieldDescriptors, records⟩

/-! ## Concrete inputs used by the theorems below -/

/-- Little-endian 4-byte encoding of `n` (n < 2^32). -/
def u32le (n : Nat) : List UInt8 :=
  [UInt8.ofNat n, UInt8.ofNat (n / 256), UInt8.ofNat (n / 65536), UInt8.ofNat (n / 16777216)]

/-- Big-endian 4-byte encoding of `n` (n < 2^32). -/
def u32be (n : Nat) : List UInt8 :=
  [UInt8.ofNat (n / 16777216), UInt8.ofNat (n / 65536), UInt8.ofNat (n / 256), UInt8.ofNat n]

/-- `n` zero bytes. -/
def zeros (n : Nat) : List UInt8 :=
  List.replicate n 0

/-- The 8 little-endian bytes of the double -2^127 (which is below the
-1e38 no-data threshold). -/
def negTwoPow127Bytes : List UInt8 :=
  zeros 6 ++ [0xE0, 0xC7]

/-- A valid 100-byte .shp header declaring file length 104 and shape type
Point, followed by 4 stray bytes: the stream ends inside the next record's
8-byte record header. -/
def c2Input : List UInt8 :=
  u32be 9994 ++ zeros 20 ++ u32be 52 ++ u32le 1000 ++ u32le 1 ++ zeros 64 ++ zeros 4

/-- A record stream holding one record with the unsupported MultiPatch
shape type 31: record number 1, content length 40 (= 20 words), content =
tag 31, 32 bytes of bounds, point count 0. -/
def c3Input : List UInt8 :=
  u32be 1 ++ u32be 20 ++ u32le 31 ++ zeros 32 ++ u32le 0

/-- Like `c3Input` but with the unknown shape-type code 2 (used by the
witness of the amended claim). -/
def c3WitnessInput : List UInt8 :=
  u32be 7 ++ u32be 20 ++ u32le 2 ++ zeros 32 ++ u32le 0

/-- A PolyLine record (type 3) with 3 parts and 6 points whose declared
parts table is [0, 5, 1] — NOT monotonic — and 96 bytes of zero
coordinates: content length 152 (= 76 words). -/
def c4Input : List UInt8 :=
  u32be 1 ++ u32be 76 ++ u32le 3 ++ zeros 32 ++ u32le 3 ++ u32le 6 ++
    u32le 0 ++ u32le 5 ++ u32le 1 ++ zeros 96

/-- A MultiPoint record (type 8) whose declared minX is -2^127 (at or
below the -1e38 no-data sentinel), with 0 points: content length 40. -/
def c8Input : List UInt8 :=
  u32be 1 ++ u32be 20 ++ u32le 8 ++ negTwoPow127Bytes ++ zeros 24 ++ u32le 0

/-- A 100-byte header (file length 100) with shape type MultiPoint and
minX = -2^127, all other bounds 0 (used by the witness of the amended
claim C8). -/
def c8HeaderInput : List UInt8 :=
  u32be 9994 ++ zeros 20 ++ u32be 50 ++ u32le 1000 ++ u32le 8 ++
    negTwoPow127Bytes ++ zeros 56

/-- Flat XY coordinates of the counter-clockwise square
(0,0),(4,0),(4,4),(0,4),(0,0): its signed double area is +32. -/
def ccwSquare : List FloatQ :=
  [.finite 0, .finite 0, .finite 4, .finite 0, .finite 4, .finite 4, .finite 0, .finite 4,
    .finite 0, .finite 0]

/-- Flat XY coordinates of the degenerate ring (0,0),(1,1),(2,2),(0,0)
from the spec: 4 points, signed double area exactly 0. -/
def degenerateRing : List FloatQ :=
  [.finite 0, .finite 0, .finite 1, .finite 1, .finite 2, .finite 2, .finite 0, .finite 0]

/-- DBF header bytes: version 3, last update (99,1,1), 1 record, header
size 65, record size 2. -/
def dbfHeaderBytes : List UInt8 :=
  [3, 99, 1, 1] ++ u32le 1 ++ [65, 0] ++ [2, 0] ++ zeros 20

/-- One DBF field descriptor: name "A", type L (logical), length 1. -/
def dbfDescBytes : List UInt8 :=
  [65] ++ zeros 10 ++ [76] ++ zeros 4 ++ [1] ++ zeros 15

/-- A complete DBF stream whose single present record carries the byte
`X` in its logical field: the field fails to parse, and with nil options
the broken-field check dereferences the nil pointer. -/
def dbfPanicInput : List UInt8 :=
  dbfHeaderBytes ++ dbfDescBytes ++ [13] ++ [32, 88] ++ [26]

/-- A well-formed DBF stream: one present record with logical value T. -/
def dbfOkInput : List UInt8 :=
  dbfHeaderBytes ++ dbfDescBytes ++ [13] ++ [32, 84] ++ [26]

/-! ## Spec-side definitions used by the claim statements -/

/-- Rings of a polygon record are delimited by consecutive entries of the
ends table: ring `i` starts at the previous end (0 for ring 0)… -/
def ringOffset (ends : List Int) : Nat → Int
  | 0 => 0
  | i + 1 => ends.getD i 0

/-- …and stops at entry `i` of the ends table. -/
def ringEnd (ends : List Int) (i : Nat) : Int :=
  ends.getD i 0

/-- The point count of ring `i` as the decoder computes it:
`(end - offset) / stride` in Go (truncating) integer division. -/
def ringNumPoints (stride : Int) (ends : List Int) (i : Nat) : Int :=
  (ringEnd ends i - ringOffset ends i).tdiv stride

/-- The signed double area of ring `i`. -/
def ringDoubleArea (stride : Int) (flatCoords : List FloatQ) (ends : List Int) (i : Nat) :
    FloatQ :=
  doubleArea flatCoords (ringOffset ends i) (ringEnd ends i) stride

/-- Modelled from the claim: the sign discipline of a grouping of rings
into polygons, for groups whose first rings sit at the given cumulative
base index.  Every group is non-empty; every group except one starting at
ring 0 opens with a ring of negative double area; and every later ring of
a group has double area that is neither negative nor zero. -/
def GroupsSigned (stride : Int) (flatCoords : List FloatQ) (ends : List Int) :
    List (List Int) → Nat → Prop
  | [], _base => True
  | g :: gs, base =>
    g ≠ [] ∧
    (base ≠ 0 → (ringDoubleArea stride flatCoords ends base).lt (.finite 0) = true) ∧
    (∀ r, 0 < r → r < g.length →
      (ringDoubleArea stride flatCoords ends (base + r)).lt (.finite 0) = false ∧
      (ringDoubleArea stride flatCoords ends (base + r)).beq (.finite 0) = false) ∧
    GroupsSigned stride flatCoords ends gs (base + g.length)

/-- Modelled from the claim: normalization of a minimum bounds component
(at or below the -1e38 sentinel becomes +infinity). -/
def normMin (x : FloatQ) : FloatQ :=
  if NoData x then .posInf else x

/-- Modelled from the claim: normalization of a maximum bounds component
(at or below the -1e38 sentinel becomes -infinity). -/
def normMax (x : FloatQ) : FloatQ :=
  if NoData x then .negInf else x

/-- The 13 record-level shape types the claim calls supported (the 14
recognised codes minus MultiPatch). -/
def recordSupportedShapeTypes : List Nat :=
  [ShapeTypeNull, ShapeTypePoint, ShapeTypePolyLine, ShapeTypePolygon, ShapeTypeMultiPoint,
    ShapeTypePointM, ShapeTypePolyLineM, ShapeTypePolygonM, ShapeTypeMultiPointM,
    ShapeTypePointZ, ShapeTypePolyLineZ, ShapeTypePolygonZ, ShapeTypeMultiPointZ]

/-- Modelled from the claim: the expected content length of a record,
computed arithmetically from the shape type's stride, the part count and
the point count.  Point families: `4 + 8 × stride`.  The multi families
add the 4-byte tag, the 32-byte bounding pairs, `4 + 4 × numParts` for the
part-count block (PolyLine/Polygon families only), 4 bytes of point count,
16 bytes per point of X/Y, plus for layouts with M an 8-byte M-range pair
and 8 bytes per point of M, plus for XYZM an 8-byte Z-range pair and
8 bytes per point of Z. -/
def specExpectedContentLength (shapeType numParts numPoints : Nat) : Nat :=
  let stride := (layoutOf shapeType).stride
  if shapeType = ShapeTypePoint ∨ shapeType = ShapeTypePointM ∨ shapeType = ShapeTypePointZ then
    4 + 8 * stride
  else
    let partsLen := if isPolyLineOrPolygon shapeType then 4 + 4 * numParts else 0
    let xyLen := 16 * numPoints
    let mLen := if (layoutOf shapeType) = .xym ∨ (layoutOf shapeType) = .xyzm then
      8 + 8 + 8 * numPoints else 0
    let zLen := if (layoutOf shapeType) = .xyzm then 8 + 8 + 8 * numPoints else 0
    4 + 32 + partsLen + 4 + xyLen + mLen + zLen

/-- The declared part count of a record's content buffer, read
positionally (only the PolyLine/Polygon families carry one). -/
def declaredNumParts (recordData : List UInt8) (shapeType : Nat) : Nat :=
  if isPolyLineOrPolygon shapeType then leU32 recordData 36 else 0

/-- The declared point count of a record's content buffer, read
positionally (offset 40 after a part count, else offset 36). -/
def declaredNumPoints (recordData : List UInt8) (shapeType : Nat) : Nat :=
  if isPolyLineOrPolygon shapeType then leU32 recordData 40 else leU32 recordData 36

/-- The decoded header of `c8HeaderInput` (used by witnesses). -/
def c8Header : SHxHeaderM :=
  ⟨8, some ⟨.xy, [.posInf, .finite 0], [.finite 0, .finite 0]⟩⟩

/-- The decoded `DBF` of `dbfOkInput` (used by witnesses). -/
def dbfOk : DBFM :=
  ⟨⟨3, false, false, 1999, 1, 1, 1, 65, 2⟩, [⟨[65], 76, 1, 0, 0, 0⟩], [some [.vBool true]]⟩

/-- The field byte offset of field `i` within a DBF record: 1 for the
deletion flag plus the lengths of the previous fields. -/
def dbfFieldOffset (descs : List DBFFieldDescriptorM) (i : Nat) : Nat :=
  1 + sumFieldLengths (descs.take i)

/-- The byte slice of field `i` within a DBF record. -/
def dbfFieldSlice (descs : List DBFFieldDescriptorM) (recordData : List UInt8) (i : Nat) :
    List UInt8 :=
  (recordData.drop (dbfFieldOffset descs i)).take (descs.getD i default).length

/-- A MultiPoint record content buffer with zero points (content length
40), used by the witness of claim C5. -/
def c5WitnessData : List UInt8 :=
  u32le 8 ++ zeros 32 ++ u32le 0

/-- The record decoded from `c5WitnessData`. -/
def c5WitnessRec : SHPRecordM :=
  ⟨1, 40, 8,
    some ⟨.xy, [.finite 0, .finite 0], [.finite 0, .finite 0]⟩,
    .multiPoint .xy []⟩

/-! ## Claim theorems -/

/-- `readFull n s` succeeds exactly when it consumes `n` bytes of `s`. -/
theorem readFull_ok {n : Nat} {s d rest : List UInt8}
    (h : readFull n s = .ok (d, rest)) :
    d = s.take n ∧ rest = s.drop n ∧ n ≤ s.length := by
  unfold readFull at h
  split at h
  · split at h
    · rename_i hn hs
      simp only [Except.ok.injEq, Prod.mk.injEq] at h
      subst hn
      simp only [List.isEmpty_iff] at hs
      simp [← h.1, ← h.2, hs]
    · exact absurd h (by simp)
  · split at h
    · rename_i hle
      simp only [Except.ok.injEq, Prod.mk.injEq] at h
      exact ⟨h.1.symm, h.2.symm, hle⟩
    · exact absurd h (by simp)

/-- A successful `ReadSHPRecord` strictly shrinks the stream (it consumes
the 8-byte record header plus at least 4 content bytes). -/
theorem ReadSHPRecord_rest_length_lt {s : List UInt8} {options : Option ReadSHPOptions}
    {r : SHPRecordM} {rest : List UInt8}
    (h : ReadSHPRecord s options = .ok (r, rest)) : rest.length < s.length := by
  unfold ReadSHPRecord at h
  split at h
  · exact absurd h (by simp)
  · rename_i res hd s1 hfull
    obtain ⟨-, hs1, hs1len⟩ := readFull_ok hfull
    simp only at h
    split at h
    · exact absurd h (by simp)
    · split at h
      · exact absurd h (by simp)
      · rename_i hcl _
        split at h
        · exact absurd h (by simp)
        · rename_i res2 rd s2 hfull2
          obtain ⟨-, hs2, hs2len⟩ := readFull_ok hfull2
          split at h
          · exact absurd h (by simp)
          · simp only [Except.ok.injEq, Prod.mk.injEq] at h
            obtain ⟨-, hrest⟩ := h
            subst hrest hs2 hs1
            simp only [List.length_drop] at *
            omega

/-- C1.  The spec's fuzz property says `ReadDBF` never panics, for every
input and every options value including a nil options pointer.  The code
violates it: on `dbfPanicInput` with nil options, the single record's
logical field holds `X`, `parseLogical` fails, and the broken-field check
`err != nil && !options.SkipBrokenFields` dereferences the nil `options`
pointer — a runtime panic, modelled as `DBFResult.panic`. -/
theorem claim1_readDBF_nil_options_panics :
    ReadDBF dbfPanicInput 0 none = DBFResult.panic := by
  decide

/-- C2, counterexample.  The claim says `ReadSHP` fails with a truncation
error when the stream ends mid-record.  On `c2Input` the stream ends 4
bytes into the next record's 8-byte record header, yet `ReadSHP` returns
success with the records read so far (here none): `readFull`'s
`err != nil` case turns the final `(0, io.EOF)` read into a returned
`io.EOF`, which the record loop treats as normal termination. -/
theorem claim2_counterexample :
    ReadSHP c2Input 104 none =
      .ok ⟨⟨1, some ⟨.xy, [.finite 0, .finite 0], [.finite 0, .finite 0]⟩⟩, []⟩ := by
  decide

/-- C3, counterexample.  The claim says a record whose shape-type tag is
unknown or MultiPatch(31) always fails.  `c3Input` is a MultiPatch record
with content length 40 and point count 0, and `ReadSHPRecord` returns it
successfully (with no geometry and no bounds): the record decoder never
checks the tag against the valid shape types. -/
theorem claim3_counterexample :
    ReadSHPRecord c3Input none = .ok (⟨1, 40, 31, none, .none⟩, []) := by
  decide

/-- C4, counterexample.  The claim says the ring-end-offset table must be
non-decreasing, any violation being rejected.  `c4Input` declares the
parts table [0, 5, 1] (6 points, stride 2), which `readEnds` turns into
the non-monotonic ends [10, 2, 12] without complaint; the PolyLine record
is returned successfully. -/
theorem claim4_counterexample :
    ReadSHPRecord c4Input none =
      .ok (⟨1, 152, 3,
        some ⟨.xy, [.finite 0, .finite 0], [.finite 0, .finite 0]⟩,
        .multiLineString .xy (List.replicate 12 (.finite 0)) [10, 2, 12]⟩, []) := by
  decide

/-- C6, counterexample.  The claim says the first ring of every output
group has negative signed double-area.  A record whose very first ring is
counter-clockwise (double area +32) still opens the first group — the
first ring starts a group regardless of sign — so the first group's first
ring has non-negative area. -/
theorem claim6_counterexample :
    makeMultiPolygonEndss .xy ccwSquare [10] = .ok [[10]] ∧
      (doubleArea ccwSquare 0 10 2).lt (.finite 0) = false := by
  constructor
  · decide
  · decide

/-- C8, counterexample.  The claim says per-record bounds of
MultiPoint/PolyLine/Polygon records are also NoData-normalized.  On
`c8Input` (a MultiPoint record with declared minX = -2^127 ≤ -1e38),
`ReadSHPRecord` keeps the sentinel value as read instead of normalizing
it to +infinity: record-level bounds are built directly from the min/max
pairs. -/
theorem claim8_counterexample :
    ReadSHPRecord c8Input none =
      .ok (⟨1, 40, 8,
        some ⟨.xy, [.finite (-(twoPow 127)), .finite 0], [.finite 0, .finite 0]⟩,
        .multiPoint .xy []⟩, []) ∧
      NoData (.finite (-(twoPow 127))) = true := by
  constructor
  · decide
  · decide

/-- C10.  After the field-descriptor list is read, `ReadDBF` verifies that
the field lengths plus the 1-byte deletion flag add up to the header's
declared record byte size, and rejects the table before decoding any
record; consequently every successfully decoded table satisfies the
equation. -/
theorem claim10_record_size {s : List UInt8} {size : Int} {options : Option ReadDBFOptions}
    {dbf : DBFM} (h : ReadDBF s size options = .ok dbf) :
    sumFieldLengths dbf.fieldDescriptors + 1 = dbf.header.recordSize := by
  unfold ReadDBF at h
  split at h
  · exact absurd h (by simp)
  · split at h
    · exact absurd h (by simp)
    · rename_i header _
      split at h
      · exact absurd h (by simp)
      · split at h
        · exact absurd h (by simp)
        · rename_i fds s2 _
          split at h
          · exact absurd h (by simp)
          · rename_i hsum
            split at h
            · exact absurd h (by simp)
            · split at h
              · exact absurd h (by simp)
              · exact absurd h (by simp)
              · rename_i records s3 _
                split at h
                · simp only [DBFResult.ok.injEq] at h
                  subst h
                  dsimp only
                  omega
                · exact absurd h (by simp)
                · split at h
                  · exact absurd h (by simp)
                  · simp only [DBFResult.ok.injEq] at h
                    subst h
                    dsimp only
                    omega

/-- C10, witness: the equation instantiated on the concrete well-formed
table `dbfOkInput`. -/
theorem claim10_record_size_witness :
    ReadDBF dbfOkInput 0 none = .ok dbfOk ∧
      sumFieldLengths dbfOk.fieldDescriptors + 1 = dbfOk.header.recordSize :=
  ⟨by decide, @claim10_record_size dbfOkInput 0 none dbfOk (by decide)⟩

/-- Folding field lengths starting from `a` adds `a` to the sum. -/
theorem sumFieldLengths_shift (l : List DBFFieldDescriptorM) :
    ∀ a, l.foldl (fun acc d => acc + d.length) a = a + sumFieldLengths l := by
  induction l with
  | nil => intro a; simp [sumFieldLengths]
  | cons d t ih =>
    intro a
    have h1 := ih (a + d.length)
    have h2 := ih (0 + d.length)
    simp only [sumFieldLengths, List.foldl_cons] at *
    omega

/-- `sumFieldLengths_shift`, restated on the raw fold. -/
theorem foldl_len_shift (l : List DBFFieldDescriptorM) (a : Nat) :
    l.foldl (fun acc d => acc + d.length) a =
      a + l.foldl (fun acc d => acc + d.length) 0 := by
  have h := sumFieldLengths_shift l a
  simpa [sumFieldLengths] using h

/-- `sumFieldLengths` unfolds on cons. -/
theorem sumFieldLengths_cons (d : DBFFieldDescriptorM) (l : List DBFFieldDescriptorM) :
    sumFieldLengths (d :: l) = d.length + sumFieldLengths l := by
  have h := sumFieldLengths_shift l (0 + d.length)
  simp only [sumFieldLengths, List.foldl_cons] at *
  omega

/-- When every field of a record parses cleanly, the field loop returns
exactly the descriptor-order list of parsed values, each taken from its
cumulative byte slice. -/
theorem readDBFFields_all_ok (options : Option ReadDBFOptions) (dec : DecoderM)
    (recordData : List UInt8) :
    ∀ (descs : List DBFFieldDescriptorM) (offset : Nat),
      (∀ i, i < descs.length →
        (ParseRecord (descs.getD i default)
          ((recordData.drop (offset + sumFieldLengths (descs.take i))).take
            (descs.getD i default).length) dec).2 = none) →
      readDBFFields options dec recordData descs offset =
        .ok ((List.range descs.length).map fun i =>
          (ParseRecord (descs.getD i default)
            ((recordData.drop (offset + sumFieldLengths (descs.take i))).take
              (descs.getD i default).length) dec).1) := by
  intro descs
  induction descs with
  | nil =>
    intro offset _
    simp [readDBFFields]
  | cons d ds ih =>
    intro offset hall
    have h0 := hall 0 (by simp)
    simp only [List.getD_cons_zero, List.take_zero, sumFieldLengths, List.foldl_nil,
      Nat.add_zero] at h0
    have hshift : ∀ i, i < ds.length →
        (ParseRecord (ds.getD i default)
          ((recordData.drop (offset + d.length + sumFieldLengths (ds.take i))).take
            (ds.getD i default).length) dec).2 = none := by
      intro i hi
      have := hall (i + 1) (by simpa using Nat.succ_lt_succ hi)
      simpa [List.take_succ_cons, sumFieldLengths_cons, Nat.add_assoc] using this
    unfold readDBFFields
    dsimp only
    rw [h0, ih (offset + d.length) hshift]
    dsimp only
    congr 1
    simp only [List.length_cons]
    rw [List.range_succ_eq_map, List.map_cons, List.map_map]
    congr 1
    any_goals simp [sumFieldLengths]
    intro a ha
    rw [foldl_len_shift (List.take a ds) d.length, ← Nat.add_assoc]

/-- C9.  The DBF record deletion-flag dispatch: an asterisk decodes the
record as absent; any flag other than space or asterisk is a fatal
invalid-record-flag error; a space decodes the fields in descriptor order
from the remaining bytes, each field from its cumulative byte slice
(stated here for records whose fields all parse cleanly, so that the
produced values are visible). -/
theorem claim9_record_flag (options : Option ReadDBFOptions) (dec : DecoderM)
    (descs : List DBFFieldDescriptorM) (recordData : List UInt8) :
    (byteAt recordData 0 = 42 →
      readDBFRecord options dec descs recordData = .ok none) ∧
    (byteAt recordData 0 ≠ 32 → byteAt recordData 0 ≠ 42 →
      readDBFRecord options dec descs recordData = .err .invalidRecordFlag) ∧
    (byteAt recordData 0 = 32 →
      (∀ i, i < descs.length →
        (ParseRecord (descs.getD i default) (dbfFieldSlice descs recordData i) dec).2 = none) →
      readDBFRecord options dec descs recordData =
        .ok (some ((List.range descs.length).map fun i =>
          (ParseRecord (descs.getD i default) (dbfFieldSlice descs recordData i) dec).1))) := by
  refine ⟨?_, ?_, ?_⟩
  · intro h42
    unfold readDBFRecord
    rw [h42]
    simp
  · intro h32 h42
    unfold readDBFRecord
    rw [if_neg h32, if_neg h42]
  · intro h32 hall
    unfold readDBFRecord
    rw [h32]
    simp only [if_pos rfl]
    rw [readDBFFields_all_ok options dec recordData descs 1 (by
      intro i hi
      simpa [dbfFieldSlice, dbfFieldOffset] using hall i hi)]
    simp [dbfFieldSlice, dbfFieldOffset]

/-- C9, witness: the three flag behaviours on a one-field logical table —
a deleted record, an invalid flag byte `A`, and a present record holding
`T`. -/
theorem claim9_record_flag_witness :
    readDBFRecord none .iso8859_1 [⟨[65], 76, 1, 0, 0, 0⟩] [42, 88] = .ok none ∧
      readDBFRecord none .iso8859_1 [⟨[65], 76, 1, 0, 0, 0⟩] [65, 88] =
        .err .invalidRecordFlag ∧
      readDBFRecord none .iso8859_1 [⟨[65], 76, 1, 0, 0, 0⟩] [32, 84] =
        .ok (some [.vBool true]) := by
  refine ⟨?_, ?_, ?_⟩
  · exact (claim9_record_flag none .iso8859_1 [⟨[65], 76, 1, 0, 0, 0⟩] [42, 88]).1 (by decide)
  · exact (claim9_record_flag none .iso8859_1 [⟨[65], 76, 1, 0, 0, 0⟩] [65, 88]).2.1
      (by decide) (by decide)
  · have h := (claim9_record_flag none .iso8859_1 [⟨[65], 76, 1, 0, 0, 0⟩] [32, 84]).2.2
      (by decide) (by decide)
    rw [h]
    decide

/-- `readFull` succeeds when enough bytes remain. -/
theorem readFull_of_le {n : Nat} {s : List UInt8} (hn : n ≠ 0) (hle : n ≤ s.length) :
    readFull n s = .ok (s.take n, s.drop n) := by
  unfold readFull
  rw [if_neg hn, if_pos hle]

/-- `readFull` returns `io.EOF` when the stream is too short. -/
theorem readFull_eof_of_lt {n : Nat} {s : List UInt8} (hn : n ≠ 0) (h : s.length < n) :
    readFull n s = .error .eof := by
  unfold readFull
  rw [if_neg hn, if_neg (by omega)]

/-- C2, amended.  `ReadSHP`'s record loop treats ANY end of stream —
at a record boundary, inside the 8-byte record header, or before the
declared content bytes complete — as normal termination: the records read
so far are returned as a successful result (here stated for the loop
state with no records yet).  Mid-record truncation is not reported as an
error because `readFull` converts it into `io.EOF`. -/
theorem claim2_amended (options : Option ReadSHPOptions) (fuel recordNumber : Nat)
    (s : List UInt8) (hf : 0 < fuel)
    (h : s.length < 8 ∨
      (4 ≤ 2 * beU32 (s.take 8) 4 ∧
        optionExceeded (options.map fun o => o.maxRecordSize) (2 * beU32 (s.take 8) 4) = false ∧
        s.length < 8 + 2 * beU32 (s.take 8) 4)) :
    readSHPRecords options fuel recordNumber s = .ok [] := by
  obtain ⟨f, rfl⟩ : ∃ f, fuel = f + 1 := ⟨fuel - 1, by omega⟩
  by_cases hs : s.length < 8
  · have hrec : ReadSHPRecord s options = .error .eof := by
      unfold ReadSHPRecord
      rw [readFull_eof_of_lt (by omega) hs]
    unfold readSHPRecords
    rw [hrec]
  · rcases h with h | ⟨h4, hmax, hlen⟩
    · omega
    · have hrec : ReadSHPRecord s options = .error .eof := by
        unfold ReadSHPRecord
        rw [readFull_of_le (by omega) (by omega)]
        simp only
        rw [if_neg (by omega), if_neg (by simp [hmax])]
        rw [readFull_eof_of_lt (by omega) (by simp only [List.length_drop]; omega)]
      unfold readSHPRecords
      rw [hrec]

/-- C2, witness: the amended theorem applied to a stream of 4 bytes
(a record header cut short). -/
theorem claim2_amended_witness :
    readSHPRecords none 1 1 [0, 0, 0, 1] = .ok [] :=
  claim2_amended none 1 1 [0, 0, 0, 1] (by decide) (Or.inl (by decide))

/-- The loop of `readEnds`, characterised: it succeeds iff every remaining
declared part (scaled by the stride) is within `maxPart`, and then appends
exactly the scaled parts in order.  No relation between consecutive parts
is checked. -/
theorem readEndsLoop_spec (rest : List UInt8) (stride maxPart : Int) :
    ∀ (cnt i : Nat) (ends : List Int),
      ByteSliceReader.readEndsLoop rest stride maxPart i cnt ends =
        if ∀ j, j < cnt → stride * (leU32 rest (4 * (i + j)) : Int) ≤ maxPart then
          some (ends ++ (List.range' i cnt).map fun k => stride * (leU32 rest (4 * k) : Int))
        else none := by
  intro cnt
  induction cnt with
  | zero =>
    intro i ends
    simp [ByteSliceReader.readEndsLoop]
  | succ c ih =>
    intro i ends
    unfold ByteSliceReader.readEndsLoop
    by_cases hp : maxPart < stride * (leU32 rest (4 * i) : Int)
    · rw [if_pos hp, if_neg]
      intro hall
      exact absurd (by simpa using hall 0 (by omega)) (by omega)
    · rw [if_neg hp, ih (i + 1) (ends ++ [stride * (leU32 rest (4 * i) : Int)])]
      by_cases hall : ∀ j, j < c + 1 → stride * (leU32 rest (4 * (i + j)) : Int) ≤ maxPart
      · rw [if_pos, if_pos hall]
        · rw [List.range'_succ, List.map_cons, List.append_assoc, List.singleton_append]
        · intro j hj
          have := hall (j + 1) (by omega)
          have harg : i + 1 + j = i + (j + 1) := by omega
          rw [harg]
          exact this
      · rw [if_neg, if_neg hall]
        intro hshift
        apply hall
        intro j hj
        match j with
        | 0 => simpa using not_lt.mp hp
        | jj + 1 =>
          have := hshift jj (by omega)
          have harg : i + 1 + jj = i + (jj + 1) := by omega
          rw [harg] at this
          exact this

/-- C4, amended.  Given a reader with no pending error and enough bytes,
`readEnds` validates only this: the first declared part must be 0 and
every later declared part must be at most the point count; the returned
table is the scaled declared parts with the implicit final end
`stride × numPoints` appended.  The table is NOT checked for
monotonicity — acceptance does not depend on the order of the parts. -/
theorem claim4_amended {r : ByteSliceReader} {layout : Layout} {numParts numPoints : Nat}
    (h0 : r.err = none) (h1 : 4 * numParts ≤ r.rest.length) (h2 : 1 ≤ numParts)
    (h3 : 0 < layout.stride) :
    ((r.readEnds layout numParts numPoints).2.err = none ↔
      (leU32 r.rest 0 = 0 ∧ ∀ i, 1 ≤ i → i < numParts → leU32 r.rest (4 * i) ≤ numPoints)) ∧
    ((r.readEnds layout numParts numPoints).2.err = none →
      (r.readEnds layout numParts numPoints).1 =
        ((List.range' 1 (numParts - 1)).map fun i =>
          ((layout.stride : Int) * (leU32 r.rest (4 * i) : Int))) ++
          [(layout.stride : Int) * (numPoints : Int)]) := by
  have hstride : (0 : Int) < (layout.stride : Int) := by exact_mod_cast h3
  unfold ByteSliceReader.readEnds
  rw [if_neg (by simp [h0])]
  simp only [if_neg (by omega : ¬r.rest.length < 4 * numParts)]
  by_cases hz : leU32 r.rest 0 ≠ 0
  · rw [if_pos hz]
    constructor
    · constructor
      · intro hcontra
        exact absurd hcontra (by simp)
      · rintro ⟨hzero, -⟩
        exact absurd hzero hz
    · intro hcontra
      exact absurd hcontra (by simp)
  · rw [if_neg hz]
    push_neg at hz
    rw [readEndsLoop_spec]
    by_cases hall : ∀ j, j < numParts - 1 →
        (layout.stride : Int) * (leU32 r.rest (4 * (1 + j)) : Int) ≤
          (layout.stride : Int) * (numPoints : Int)
    · rw [if_pos hall]
      simp only [List.nil_append, h0]
      constructor
      · constructor
        · rintro -
          refine ⟨hz, ?_⟩
          intro i hi1 hi2
          have := hall (i - 1) (by omega)
          have harg : 1 + (i - 1) = i := by omega
          rw [harg] at this
          have := (mul_le_mul_left hstride).mp this
          exact_mod_cast this
        · rintro -
          trivial
      · rintro -
        trivial
    · rw [if_neg hall]
      simp only
      constructor
      · constructor
        · intro hcontra
          exact absurd hcontra (by simp)
        · rintro ⟨-, hbound⟩
          exfalso
          apply hall
          intro j hj
          have := hbound (1 + j) (by omega) (by omega)
          exact (mul_le_mul_left hstride).mpr (by exact_mod_cast this)
      · intro hcontra
        exact absurd hcontra (by simp)

/-- C4, witness: the amended characterisation applied to a fresh reader
over the non-monotonic parts table [0, 5, 1] with 3 parts, 6 points and
stride 2: accepted, with ends [10, 2, 12]. -/
theorem claim4_amended_witness :
    ((newByteSliceReader (u32le 0 ++ u32le 5 ++ u32le 1)).readEnds .xy 3 6).2.err = none ∧
      ((newByteSliceReader (u32le 0 ++ u32le 5 ++ u32le 1)).readEnds .xy 3 6).1 =
        [10, 2, 12] := by
  have h := @claim4_amended (newByteSliceReader (u32le 0 ++ u32le 5 ++ u32le 1)) .xy 3 6
    (by decide) (by decide) (by decide) (by decide)
  have herr : ((newByteSliceReader (u32le 0 ++ u32le 5 ++ u32le 1)).readEnds .xy 3 6).2.err =
      none := by
    rw [h.1]
    decide
  refine ⟨herr, ?_⟩
  rw [h.2 herr]
  decide

set_option maxHeartbeats 2000000 in
/-- C8, amended.  The bounding box parsed from the 100-byte header IS
NoData-normalized, componentwise: minima at or below -1e38 become
+infinity, maxima become -infinity, components above the threshold are
kept as read (the positions 36/44/52/60 carry X/Y, 68/76 carry Z and
84/92 carry M).  Per-record bounds, by contrast, are NOT normalized
(see the counterexample). -/
theorem claim8_amended {data : List UInt8} {fileLength : Int} {hdr : SHxHeaderM}
    (h : parseSHxHeader data fileLength = .ok hdr) :
    (hdr.shapeType = ShapeTypePoint ∨ hdr.shapeType = ShapeTypeMultiPoint ∨
        hdr.shapeType = ShapeTypePolyLine ∨ hdr.shapeType = ShapeTypePolygon →
      hdr.bounds = some ⟨.xy, [normMin (leF64 data 36), normMin (leF64 data 44)],
        [normMax (leF64 data 52), normMax (leF64 data 60)]⟩) ∧
    (hdr.shapeType = ShapeTypePointM ∨ hdr.shapeType = ShapeTypeMultiPointM ∨
        hdr.shapeType = ShapeTypePolyLineM ∨ hdr.shapeType = ShapeTypePolygonM →
      hdr.bounds = some ⟨.xym,
        [normMin (leF64 data 36), normMin (leF64 data 44), normMin (leF64 data 84)],
        [normMax (leF64 data 52), normMax (leF64 data 60), normMax (leF64 data 92)]⟩) ∧
    (hdr.shapeType = ShapeTypePointZ ∨ hdr.shapeType = ShapeTypeMultiPointZ ∨
        hdr.shapeType = ShapeTypePolyLineZ ∨ hdr.shapeType = ShapeTypePolygonZ →
      hdr.bounds = some ⟨.xyzm,
        [normMin (leF64 data 36), normMin (leF64 data 44), normMin (leF64 data 68),
          normMin (leF64 data 84)],
        [normMax (leF64 data 52), normMax (leF64 data 60), normMax (leF64 data 76),
          normMax (leF64 data 92)]⟩) ∧
    (hdr.shapeType = ShapeTypeNull → hdr.bounds = none) := by
  unfold parseSHxHeader at h
  by_cases c1 : data.length ≠ headerSize
  · rw [if_pos c1] at h
    exact Except.noConfusion h
  rw [if_neg c1] at h
  by_cases c2 : beU32 data 0 ≠ fileCode
  · rw [if_pos c2] at h
    exact Except.noConfusion h
  rw [if_neg c2] at h
  by_cases c3 : 2 * (beU32 data 24 : Int) ≠ fileLength
  · rw [if_pos c3] at h
    exact Except.noConfusion h
  rw [if_neg c3] at h
  by_cases c4 : leU32 data 28 ≠ version
  · rw [if_pos c4] at h
    exact Except.noConfusion h
  rw [if_neg c4] at h
  simp only at h
  by_cases c5 : leU32 data 32 ∉ validShapeTypes
  · rw [if_pos c5] at h
    exact Except.noConfusion h
  rw [if_neg c5] at h
  by_cases c6 : leU32 data 32 ∈ unsupportedShapeTypes
  · rw [if_pos c6] at h
    exact Except.noConfusion h
  rw [if_neg c6] at h
  have hEq := Except.ok.inj h
  subst hEq
  dsimp only
  refine ⟨?_, ?_, ?_, ?_⟩
  · intro hfam
    rw [if_pos hfam]
    simp only [normMin, normMax]
  · intro hfam
    rw [if_neg (by rcases hfam with hst | hst | hst | hst <;> rw [hst] <;> decide), if_pos hfam]
    simp only [normMin, normMax]
  · intro hfam
    rw [if_neg (by rcases hfam with hst | hst | hst | hst <;> rw [hst] <;> decide),
      if_neg (by rcases hfam with hst | hst | hst | hst <;> rw [hst] <;> decide), if_pos hfam]
    simp only [normMin, normMax]
  · intro hnull
    rw [if_neg (by rw [hnull]; decide), if_neg (by rw [hnull]; decide),
      if_neg (by rw [hnull]; decide)]

/-- C8, witness: the amended theorem instantiated on a header declaring
shape type MultiPoint whose minX is -2^127 (at or below -1e38): the header
minX component is normalized to +infinity. -/
theorem claim8_amended_witness :
    parseSHxHeader c8HeaderInput 100 = .ok c8Header ∧
      c8Header.bounds = some ⟨.xy,
        [normMin (leF64 c8HeaderInput 36), normMin (leF64 c8HeaderInput 44)],
        [normMax (leF64 c8HeaderInput 52), normMax (leF64 c8HeaderInput 60)]⟩ ∧
      normMin (leF64 c8HeaderInput 36) = .posInf :=
  ⟨by decide, (@claim8_amended c8HeaderInput 100 c8Header (by decide)).1 (by decide), by decide⟩

/-- Reading a byte of a dropped list reads at the shifted position. -/
theorem byteAt_drop (l : List UInt8) (k i : Nat) :
    byteAt (l.drop k) i = byteAt l (k + i) := by
  simp [byteAt, List.getD_eq_getElem?_getD, List.getElem?_drop]

/-- Reading a little-endian u32 of a dropped list reads at the shifted
position. -/
theorem leU32_drop (l : List UInt8) (k off : Nat) :
    leU32 (l.drop k) off = leU32 l (k + off) := by
  simp only [leU32, byteAt_drop]
  ring_nf

/-- If no sticky error remains after `readUint32`, the read succeeded:
there was no prior error, 4 bytes were available, the value is the
little-endian u32 at the front, and the reader advanced 4 bytes. -/
theorem readUint32_err_none {r : ByteSliceReader} (h : (r.readUint32).2.err = none) :
    r.err = none ∧ 4 ≤ r.rest.length ∧ (r.readUint32).1 = leU32 r.rest 0 ∧
      (r.readUint32).2 = ⟨r.rest.drop 4, none⟩ := by
  unfold ByteSliceReader.readUint32 at *
  by_cases h1 : r.err.isSome
  · rw [if_pos h1] at h
    have hh : r.err = none := h
    simp [hh] at h1
  · have hh := Option.not_isSome_iff_eq_none.mp h1
    rw [if_neg h1] at h ⊢
    by_cases h2 : r.rest.length < 4
    · rw [if_pos h2] at h
      have hc : (some ErrM.unexpectedEndOfData : Option ErrM) = none := h
      simp at hc
    · rw [if_neg h2] at h ⊢
      refine ⟨hh, by omega, rfl, ?_⟩
      rw [hh]

/-- Like `readUint32_err_none`, for `readFloat64Pair`. -/
theorem readFloat64Pair_err_none {r : ByteSliceReader}
    (h : (r.readFloat64Pair).2.err = none) :
    r.err = none ∧ 16 ≤ r.rest.length ∧ (r.readFloat64Pair).2 = ⟨r.rest.drop 16, none⟩ := by
  unfold ByteSliceReader.readFloat64Pair at *
  by_cases h1 : r.err.isSome
  · rw [if_pos h1] at h
    have hh : r.err = none := h
    simp [hh] at h1
  · have hh := Option.not_isSome_iff_eq_none.mp h1
    rw [if_neg h1] at h ⊢
    by_cases h2 : r.rest.length < 16
    · rw [if_pos h2] at h
      have hc : (some ErrM.unexpectedEndOfData : Option ErrM) = none := h
      simp at hc
    · rw [if_neg h2] at h ⊢
      refine ⟨hh, by omega, ?_⟩
      rw [hh]

/-- Like `readUint32_err_none`, for `readFloat64s`. -/
theorem readFloat64s_err_none {r : ByteSliceReader} {n : Nat}
    (h : (r.readFloat64s n).2.err = none) :
    r.err = none ∧ 8 * n ≤ r.rest.length ∧
      (r.readFloat64s n).2 = ⟨r.rest.drop (8 * n), none⟩ := by
  unfold ByteSliceReader.readFloat64s at *
  by_cases h1 : r.err.isSome
  · rw [if_pos h1] at h
    have hh : r.err = none := h
    simp [hh] at h1
  · have hh := Option.not_isSome_iff_eq_none.mp h1
    rw [if_neg h1] at h ⊢
    by_cases h2 : r.rest.length < 8 * n
    · rw [if_pos h2] at h
      have hc : (some ErrM.unexpectedEndOfData : Option ErrM) = none := h
      simp at hc
    · rw [if_neg h2] at h ⊢
      refine ⟨hh, by omega, ?_⟩
      rw [hh]

/-- Like `readUint32_err_none`, for `readXYs`. -/
theorem readXYs_err_none {r : ByteSliceReader} {fc : List FloatQ} {n : Nat} {layout : Layout}
    (h : (r.readXYs fc n layout).2.err = none) :
    r.err = none ∧ 16 * n ≤ r.rest.length ∧
      (r.readXYs fc n layout).2 = ⟨r.rest.drop (16 * n), none⟩ := by
  unfold ByteSliceReader.readXYs at *
  by_cases h1 : r.err.isSome
  · rw [if_pos h1] at h
    have hh : r.err = none := h
    simp [hh] at h1
  · have hh := Option.not_isSome_iff_eq_none.mp h1
    rw [if_neg h1] at h ⊢
    by_cases h2 : r.rest.length < 16 * n
    · rw [if_pos h2] at h
      have hc : (some ErrM.unexpectedEndOfData : Option ErrM) = none := h
      simp at hc
    · rw [if_neg h2] at h ⊢
      refine ⟨hh, by omega, ?_⟩
      rw [hh]

/-- Like `readUint32_err_none`, for `readOrdinates`. -/
theorem readOrdinates_err_none {r : ByteSliceReader} {fc : List FloatQ} {n : Nat}
    {layout : Layout} {index : Nat}
    (h : (r.readOrdinates fc n layout index).2.err = none) :
    r.err = none ∧ 8 * n ≤ r.rest.length ∧
      (r.readOrdinates fc n layout index).2 = ⟨r.rest.drop (8 * n), none⟩ := by
  unfold ByteSliceReader.readOrdinates at *
  by_cases h1 : r.err.isSome
  · rw [if_pos h1] at h
    have hh : r.err = none := h
    simp [hh] at h1
  · have hh := Option.not_isSome_iff_eq_none.mp h1
    rw [if_neg h1] at h ⊢
    by_cases h2 : r.rest.length < 8 * n
    · rw [if_pos h2] at h
      have hc : (some ErrM.unexpectedEndOfData : Option ErrM) = none := h
      simp at hc
    · rw [if_neg h2] at h ⊢
      refine ⟨hh, by omega, ?_⟩
      rw [hh]

/-- Like `readUint32_err_none`, for `readEnds`: success also forces the
first declared part to be 0, and the reader advances over the whole
table. -/
theorem readEnds_err_none {r : ByteSliceReader} {layout : Layout} {numParts numPoints : Nat}
    (h : (r.readEnds layout numParts numPoints).2.err = none) :
    r.err = none ∧ 4 * numParts ≤ r.rest.length ∧ leU32 r.rest 0 = 0 ∧
      (r.readEnds layout numParts numPoints).2 = ⟨r.rest.drop (4 * numParts), none⟩ := by
  unfold ByteSliceReader.readEnds at *
  by_cases h1 : r.err.isSome
  · rw [if_pos h1] at h
    have hh : r.err = none := h
    simp [hh] at h1
  · have hh := Option.not_isSome_iff_eq_none.mp h1
    rw [if_neg h1] at h ⊢
    simp only at h ⊢
    by_cases hz : leU32 r.rest 0 ≠ 0
    · rw [if_pos hz] at h
      have hc : (some ErrM.invalidPart : Option ErrM) = none := h
      simp at hc
    · push_neg at hz
      rw [if_neg (by simpa using hz)] at h ⊢
      by_cases h2 : r.rest.length < 4 * numParts
      · simp only [if_pos h2] at h
        split at h
        · have hc : (some ErrM.invalidPart : Option ErrM) = none := h
          simp at hc
        · have hc : (some ErrM.unexpectedEndOfData : Option ErrM) = none := h
          simp at hc
      · simp only [if_neg h2] at h ⊢
        split at h <;> rename_i hloop
        · have hc : (some ErrM.invalidPart : Option ErrM) = none := h
          simp at hc
        · refine ⟨hh, by omega, hz, ?_⟩
          rw [hh]

/-- The state of the content reader after the tag and the two bounding
pairs have been read successfully: 36 bytes in. -/
theorem chain36 {d : List UInt8}
    (h : ((((newByteSliceReader d).readUint32).2.readFloat64Pair).2.readFloat64Pair).2.err =
      none) :
    ((((newByteSliceReader d).readUint32).2.readFloat64Pair).2.readFloat64Pair).2 =
      ⟨List.drop 36 d, none⟩ := by
  have hP2 := readFloat64Pair_err_none h
  have hP1 := readFloat64Pair_err_none hP2.1
  have hU0 := readUint32_err_none hP1.1
  simp only [newByteSliceReader] at hU0 hP1 hP2 ⊢
  rw [hU0.2.2.2] at hP1 hP2 ⊢
  dsimp only at hP1
  simp only [List.drop_drop] at hP1
  rw [hP1.2.2] at hP2 ⊢
  dsimp only at hP2
  simp only [List.drop_drop] at hP2
  rw [hP2.2.2]

/-- `readUint32` from an explicit mid-stream position: the value is the
little-endian word at that offset and the reader advances 4 bytes. -/
theorem readUint32_at {d : List UInt8} {k : Nat}
    (h : ((⟨List.drop k d, none⟩ : ByteSliceReader).readUint32).2.err = none) :
    ((⟨List.drop k d, none⟩ : ByteSliceReader).readUint32).1 = leU32 d k ∧
      ((⟨List.drop k d, none⟩ : ByteSliceReader).readUint32).2 =
        ⟨List.drop (k + 4) d, none⟩ := by
  have h0 := readUint32_err_none h
  dsimp only at h0
  refine ⟨?_, ?_⟩
  · rw [h0.2.2.1, leU32_drop, Nat.add_zero]
  · rw [h0.2.2.2, List.drop_drop]

/-- C3, amended.  A record whose shape-type tag is not one of the 13
supported codes (unknown codes as well as MultiPatch) is NOT specifically
rejected: no validity check is applied to the record tag.  Such a record
is decoded with no layout, so it can only succeed with content length
exactly 40 and a declared point count of 0, in which case it is returned
successfully with no geometry and no bounds (the counterexample shows such
a success); any other shape fails only through the generic content-length
or coordinate-read checks. -/
theorem claim3_amended {recordNumber contentLength : Nat} {recordData : List UInt8}
    {options : Option ReadSHPOptions} {rec : SHPRecordM}
    (hlen : recordData.length = contentLength)
    (h : parseSHPRecordContent recordNumber contentLength recordData options = .ok rec)
    (hshape : rec.shapeType ∉ recordSupportedShapeTypes) :
    contentLength = 40 ∧ leU32 recordData 36 = 0 ∧ rec.geom = .none ∧ rec.bounds = none := by
  unfold parseSHPRecordContent at h
  simp only at h
  split at h
  · rename_i hnull
    split at h
    · exact Except.noConfusion h
    · have hrec := Except.ok.inj h
      subst hrec
      dsimp only at hshape
      exact absurd (by decide) hshape
  · rename_i hnull
    split at h
    · rename_i hpt
      split at h
      · exact Except.noConfusion h
      · have hrec := Except.ok.inj h
        subst hrec
        dsimp only at hshape hpt
        rcases hpt with hst | hst | hst <;> rw [hst] at hshape <;>
          exact absurd (by decide) hshape
    · rename_i hpt
      split at h
      · exact Except.noConfusion h
      · rename_i np r4 partsLen heq
        split at h
        · exact Except.noConfusion h
        · split at h
          · exact Except.noConfusion h
          · rename_i hmax hcl
            split at h
            · exact Except.noConfusion h
            · rename_i hErr
              split at h
              · exact Except.noConfusion h
              · rename_i g hgeom
                have hrec := Except.ok.inj h
                subst hrec
                dsimp only at hshape hErr hgeom hcl ⊢
                simp only [recordSupportedShapeTypes, List.mem_cons,
                  List.not_mem_nil, or_false] at hshape
                push_neg at hshape
                obtain ⟨h0, h1', h3, h5, h8, h21, h23, h25, h28, h11, h13, h15, h18⟩ := hshape
                have hpoly : isPolyLineOrPolygon
                    ((newByteSliceReader recordData).readUint32).1 = false := by
                  simp [isPolyLineOrPolygon, h3, h23, h13, h5, h25, h15]
                have hlayout : layoutOf ((newByteSliceReader recordData).readUint32).1 =
                    .noLayout := by
                  simp [layoutOf, h1', h8, h3, h5, h21, h28, h23, h25, h11, h18, h13, h15]
                simp only [readPartsStep, hpoly, Bool.false_eq_true, if_false,
                  Except.ok.injEq, Prod.mk.injEq] at heq
                obtain ⟨hnp, hr4, hpl⟩ := heq
                rw [hlayout] at hErr hgeom hcl ⊢
                simp only [readBoundsStep] at hErr ⊢
                rw [hpoly] at hErr
                simp only [Bool.false_eq_true, if_false] at hErr
                -- peel the reader chain backwards
                have hXY := readXYs_err_none hErr
                rw [← hr4] at hXY
                have hU := readUint32_err_none hXY.1
                have hP2 := readFloat64Pair_err_none hU.1
                have hP1 := readFloat64Pair_err_none hP2.1
                have hU0 := readUint32_err_none hP1.1
                -- positions: rewrite each reader state into a drop of recordData
                simp only [newByteSliceReader] at hU0 hP1 hP2 hU hXY
                rw [hU0.2.2.2] at hP1 hP2 hU hXY
                dsimp only at hP1
                simp only [List.drop_drop] at hP1
                rw [hP1.2.2] at hP2 hU hXY
                dsimp only at hP2
                simp only [List.drop_drop] at hP2
                rw [hP2.2.2] at hU hXY
                dsimp only at hU
                simp only [List.drop_drop, leU32_drop] at hU
                have hnpts := hU.2.2.1
                rw [hU.2.2.2] at hXY
                dsimp only at hXY
                have hlen40 : contentLength = 40 := by
                  rw [← hpl] at hcl
                  simp [layoutPointsLen] at hcl
                  omega
                refine ⟨hlen40, ?_, ?_, ?_⟩
                · -- the point count must be 0: no bytes remain for coordinates
                  have hrest := hXY.2.1
                  rw [hnpts] at hrest
                  simp only [List.drop_drop, List.length_drop] at hrest
                  norm_num at hrest
                  omega
                · simp only [buildGeom, h8, h28, h18, h3, h23, h13, h5, h25, h15,
                    or_self, if_false] at hgeom
                  exact (Except.ok.inj hgeom).symm
                · trivial

/-- C3, witness: the amended theorem applied to a record with the unknown
shape-type code 2 (content length 40, point count 0), which
`ReadSHPRecord` accepts. -/
theorem claim3_amended_witness :
    ∃ rec rest, ReadSHPRecord c3WitnessInput none = .ok (rec, rest) ∧
      rec.contentLength = 40 ∧ rec.geom = .none := by
  refine ⟨⟨7, 40, 2, none, .none⟩, [], by decide, ?_, ?_⟩
  · have h := @claim3_amended 7 40 (u32le 2 ++ zeros 32 ++ u32le 0) none
      ⟨7, 40, 2, none, .none⟩ (by decide) (by decide) (by decide)
    exact h.1
  · have h := @claim3_amended 7 40 (u32le 2 ++ zeros 32 ++ u32le 0) none
      ⟨7, 40, 2, none, .none⟩ (by decide) (by decide) (by decide)
    exact h.2.2.1

/-- C5.  Every record content buffer the decoder accepts with a supported
non-null shape type has content length exactly equal to the expected
length computed arithmetically from the shape type's stride, the declared
part count and the declared point count (Point families: `4 + 8×stride`;
multi families: tag + bounds + optional parts block + point count + per
layout 16 bytes per point of X/Y, an 8-byte M range and 8 bytes per point
of M for XYM, plus an 8-byte Z range and 8 bytes per point of Z for XYZM);
any other content length is rejected. -/
theorem claim5_content_length {recordNumber contentLength : Nat} {recordData : List UInt8}
    {options : Option ReadSHPOptions} {rec : SHPRecordM}
    (h : parseSHPRecordContent recordNumber contentLength recordData options = .ok rec)
    (hmem : rec.shapeType ∈ recordSupportedShapeTypes)
    (hnn : rec.shapeType ≠ ShapeTypeNull) :
    contentLength = specExpectedContentLength rec.shapeType
      (declaredNumParts recordData rec.shapeType)
      (declaredNumPoints recordData rec.shapeType) := by
  unfold parseSHPRecordContent at h
  simp only at h
  split at h
  · rename_i hnull
    split at h
    · exact Except.noConfusion h
    · have hrec := Except.ok.inj h
      subst hrec
      dsimp only at hnn
      exact absurd rfl hnn
  · rename_i hnull
    split at h
    · rename_i hpt
      split at h
      · exact Except.noConfusion h
      · rename_i hclp
        have hrec := Except.ok.inj h
        subst hrec
        dsimp only at hclp ⊢
        push_neg at hclp
        rcases hpt with hst | hst | hst <;> rw [hst] at hclp ⊢ <;> rw [hclp] <;>
          simp [specExpectedContentLength, layoutOf, Layout.stride,
            ShapeTypePoint, ShapeTypePointM, ShapeTypePointZ]
    · rename_i hpt
      split at h
      · exact Except.noConfusion h
      · rename_i np r4 partsLen heq
        split at h
        · exact Except.noConfusion h
        · split at h
          · exact Except.noConfusion h
          · rename_i hmax hcl
            split at h
            · exact Except.noConfusion h
            · rename_i hErr
              split at h
              · exact Except.noConfusion h
              · rename_i g hgeom
                have hrec := Except.ok.inj h
                subst hrec
                dsimp only at hmem hErr hcl ⊢
                simp only [recordSupportedShapeTypes, List.mem_cons,
                  List.not_mem_nil, or_false] at hmem
                rcases hmem with hst | hst | hst | hst | hst | hst | hst |
                  hst | hst | hst | hst | hst | hst
                · exact absurd hst hnull
                · exact absurd (Or.inl hst) hpt
                · -- PolyLine, layout XY
                  rw [hst] at heq hcl hErr ⊢
                  rw [show layoutOf ShapeTypePolyLine = Layout.xy from by decide] at hcl hErr
                  simp only [readPartsStep] at heq
                  rw [if_pos (show isPolyLineOrPolygon ShapeTypePolyLine = true
                    from by decide)] at heq
                  split at heq
                  · exact Except.noConfusion heq
                  split at heq
                  · exact Except.noConfusion heq
                  simp only [Except.ok.injEq, Prod.mk.injEq] at heq
                  obtain ⟨hnp, hr4, hpl⟩ := heq
                  simp only [readBoundsStep] at hErr
                  rw [if_pos (show isPolyLineOrPolygon ShapeTypePolyLine = true
                    from by decide)] at hErr
                  have hXY := readXYs_err_none hErr
                  have hEnds := readEnds_err_none hXY.1
                  have hU5 := readUint32_err_none hEnds.1
                  rw [← hr4] at hU5 hEnds hcl
                  have hU4 := readUint32_err_none hU5.1
                  have hC := chain36 hU4.1
                  rw [hC] at hpl hcl hU5 hEnds
                  have hA36 := readUint32_at hU5.1
                  norm_num at hA36
                  rw [hA36.1] at hpl
                  rw [hA36.2] at hEnds hcl
                  have hA40 := readUint32_at hEnds.1
                  rw [hA40.1] at hcl
                  push_neg at hcl
                  simp only [layoutPointsLen] at hcl
                  simp [specExpectedContentLength, declaredNumParts, declaredNumPoints,
                    isPolyLineOrPolygon, layoutOf, Layout.stride, ShapeTypeNull,
                    ShapeTypePoint, ShapeTypePolyLine, ShapeTypePolygon, ShapeTypeMultiPoint,
                    ShapeTypePointM, ShapeTypePolyLineM, ShapeTypePolygonM,
                    ShapeTypeMultiPointM, ShapeTypePointZ, ShapeTypePolyLineZ,
                    ShapeTypePolygonZ, ShapeTypeMultiPointZ]
                  omega
                · -- Polygon, layout XY
                  rw [hst] at heq hcl hErr ⊢
                  rw [show layoutOf ShapeTypePolygon = Layout.xy from by decide] at hcl hErr
                  simp only [readPartsStep] at heq
                  rw [if_pos (show isPolyLineOrPolygon ShapeTypePolygon = true
                    from by decide)] at heq
                  split at heq
                  · exact Except.noConfusion heq
                  split at heq
                  · exact Except.noConfusion heq
                  simp only [Except.ok.injEq, Prod.mk.injEq] at heq
                  obtain ⟨hnp, hr4, hpl⟩ := heq
                  simp only [readBoundsStep] at hErr
                  rw [if_pos (show isPolyLineOrPolygon ShapeTypePolygon = true
                    from by decide)] at hErr
                  have hXY := readXYs_err_none hErr
                  have hEnds := readEnds_err_none hXY.1
                  have hU5 := readUint32_err_none hEnds.1
                  rw [← hr4] at hU5 hEnds hcl
                  have hU4 := readUint32_err_none hU5.1
                  have hC := chain36 hU4.1
                  rw [hC] at hpl hcl hU5 hEnds
                  have hA36 := readUint32_at hU5.1
                  norm_num at hA36
                  rw [hA36.1] at hpl
                  rw [hA36.2] at hEnds hcl
                  have hA40 := readUint32_at hEnds.1
                  rw [hA40.1] at hcl
                  push_neg at hcl
                  simp only [layoutPointsLen] at hcl
                  simp [specExpectedContentLength, declaredNumParts, declaredNumPoints,
                    isPolyLineOrPolygon, layoutOf, Layout.stride, ShapeTypeNull,
                    ShapeTypePoint, ShapeTypePolyLine, ShapeTypePolygon, ShapeTypeMultiPoint,
                    ShapeTypePointM, ShapeTypePolyLineM, ShapeTypePolygonM,
                    ShapeTypeMultiPointM, ShapeTypePointZ, ShapeTypePolyLineZ,
                    ShapeTypePolygonZ, ShapeTypeMultiPointZ]
                  omega
                · -- MultiPoint, layout XY
                  rw [hst] at heq hcl hErr ⊢
                  rw [show layoutOf ShapeTypeMultiPoint = Layout.xy from by decide] at hcl hErr
                  simp only [readPartsStep] at heq
                  rw [if_neg (show ¬isPolyLineOrPolygon ShapeTypeMultiPoint = true
                    from by decide)] at heq
                  simp only [Except.ok.injEq, Prod.mk.injEq] at heq
                  obtain ⟨hnp, hr4, hpl⟩ := heq
                  simp only [readBoundsStep] at hErr
                  rw [if_neg (show ¬isPolyLineOrPolygon ShapeTypeMultiPoint = true
                    from by decide)] at hErr
                  have hXY := readXYs_err_none hErr
                  have hU5 := readUint32_err_none hXY.1
                  rw [← hr4] at hU5 hXY hcl
                  have hC := chain36 hU5.1
                  rw [hC] at hcl hXY
                  have hA36 := readUint32_at hXY.1
                  rw [hA36.1] at hcl
                  rw [← hpl] at hcl
                  push_neg at hcl
                  simp only [layoutPointsLen] at hcl
                  simp [specExpectedContentLength, declaredNumParts, declaredNumPoints,
                    isPolyLineOrPolygon, layoutOf, Layout.stride, ShapeTypeNull,
                    ShapeTypePoint, ShapeTypePolyLine, ShapeTypePolygon, ShapeTypeMultiPoint,
                    ShapeTypePointM, ShapeTypePolyLineM, ShapeTypePolygonM,
                    ShapeTypeMultiPointM, ShapeTypePointZ, ShapeTypePolyLineZ,
                    ShapeTypePolygonZ, ShapeTypeMultiPointZ]
                  omega
                · exact absurd (Or.inr (Or.inl hst)) hpt
                · -- PolyLineM, layout XYM
                  rw [hst] at heq hcl hErr ⊢
                  rw [show layoutOf ShapeTypePolyLineM = Layout.xym from by decide] at hcl hErr
                  simp only [readPartsStep] at heq
                  rw [if_pos (show isPolyLineOrPolygon ShapeTypePolyLineM = true
                    from by decide)] at heq
                  split at heq
                  · exact Except.noConfusion heq
                  split at heq
                  · exact Except.noConfusion heq
                  simp only [Except.ok.injEq, Prod.mk.injEq] at heq
                  obtain ⟨hnp, hr4, hpl⟩ := heq
                  simp only [readBoundsStep] at hErr
                  rw [if_pos (show isPolyLineOrPolygon ShapeTypePolyLineM = true
                    from by decide)] at hErr
                  have hOrdM := readOrdinates_err_none hErr
                  have hPM := readFloat64Pair_err_none hOrdM.1
                  have hXY := readXYs_err_none hPM.1
                  have hEnds := readEnds_err_none hXY.1
                  have hU5 := readUint32_err_none hEnds.1
                  rw [← hr4] at hU5 hEnds hcl
                  have hU4 := readUint32_err_none hU5.1
                  have hC := chain36 hU4.1
                  rw [hC] at hpl hcl hU5 hEnds
                  have hA36 := readUint32_at hU5.1
                  norm_num at hA36
                  rw [hA36.1] at hpl
                  rw [hA36.2] at hEnds hcl
                  have hA40 := readUint32_at hEnds.1
                  rw [hA40.1] at hcl
                  push_neg at hcl
                  simp only [layoutPointsLen] at hcl
                  simp [specExpectedContentLength, declaredNumParts, declaredNumPoints,
                    isPolyLineOrPolygon, layoutOf, Layout.stride, ShapeTypeNull,
                    ShapeTypePoint, ShapeTypePolyLine, ShapeTypePolygon, ShapeTypeMultiPoint,
                    ShapeTypePointM, ShapeTypePolyLineM, ShapeTypePolygonM,
                    ShapeTypeMultiPointM, ShapeTypePointZ, ShapeTypePolyLineZ,
                    ShapeTypePolygonZ, ShapeTypeMultiPointZ]
                  omega
                · -- PolygonM, layout XYM
                  rw [hst] at heq hcl hErr ⊢
                  rw [show layoutOf ShapeTypePolygonM = Layout.xym from by decide] at hcl hErr
                  simp only [readPartsStep] at heq
                  rw [if_pos (show isPolyLineOrPolygon ShapeTypePolygonM = true
                    from by decide)] at heq
                  split at heq
                  · exact Except.noConfusion heq
                  split at heq
                  · exact Except.noConfusion heq
                  simp only [Except.ok.injEq, Prod.mk.injEq] at heq
                  obtain ⟨hnp, hr4, hpl⟩ := heq
                  simp only [readBoundsStep] at hErr
                  rw [if_pos (show isPolyLineOrPolygon ShapeTypePolygonM = true
                    from by decide)] at hErr
                  have hOrdM := readOrdinates_err_none hErr
                  have hPM := readFloat64Pair_err_none hOrdM.1
                  have hXY := readXYs_err_none hPM.1
                  have hEnds := readEnds_err_none hXY.1
                  have hU5 := readUint32_err_none hEnds.1
                  rw [← hr4] at hU5 hEnds hcl
                  have hU4 := readUint32_err_none hU5.1
                  have hC := chain36 hU4.1
                  rw [hC] at hpl hcl hU5 hEnds
                  have hA36 := readUint32_at hU5.1
                  norm_num at hA36
                  rw [hA36.1] at hpl
                  rw [hA36.2] at hEnds hcl
                  have hA40 := readUint32_at hEnds.1
                  rw [hA40.1] at hcl
                  push_neg at hcl
                  simp only [layoutPointsLen] at hcl
                  simp [specExpectedContentLength, declaredNumParts, declaredNumPoints,
                    isPolyLineOrPolygon, layoutOf, Layout.stride, ShapeTypeNull,
                    ShapeTypePoint, ShapeTypePolyLine, ShapeTypePolygon, ShapeTypeMultiPoint,
                    ShapeTypePointM, ShapeTypePolyLineM, ShapeTypePolygonM,
                    ShapeTypeMultiPointM, ShapeTypePointZ, ShapeTypePolyLineZ,
                    ShapeTypePolygonZ, ShapeTypeMultiPointZ]
                  omega
                · -- MultiPointM, layout XYM
                  rw [hst] at heq hcl hErr ⊢
                  rw [show layoutOf ShapeTypeMultiPointM = Layout.xym from by decide] at hcl hErr
                  simp only [readPartsStep] at heq
                  rw [if_neg (show ¬isPolyLineOrPolygon ShapeTypeMultiPointM = true
                    from by decide)] at heq
                  simp only [Except.ok.injEq, Prod.mk.injEq] at heq
                  obtain ⟨hnp, hr4, hpl⟩ := heq
                  simp only [readBoundsStep] at hErr
                  rw [if_neg (show ¬isPolyLineOrPolygon ShapeTypeMultiPointM = true
                    from by decide)] at hErr
                  have hOrdM := readOrdinates_err_none hErr
                  have hPM := readFloat64Pair_err_none hOrdM.1
                  have hXY := readXYs_err_none hPM.1
                  have hU5 := readUint32_err_none hXY.1
                  rw [← hr4] at hU5 hXY hcl
                  have hC := chain36 hU5.1
                  rw [hC] at hcl hXY
                  have hA36 := readUint32_at hXY.1
                  rw [hA36.1] at hcl
                  rw [← hpl] at hcl
                  push_neg at hcl
                  simp only [layoutPointsLen] at hcl
                  simp [specExpectedContentLength, declaredNumParts, declaredNumPoints,
                    isPolyLineOrPolygon, layoutOf, Layout.stride, ShapeTypeNull,
                    ShapeTypePoint, ShapeTypePolyLine, ShapeTypePolygon, ShapeTypeMultiPoint,
                    ShapeTypePointM, ShapeTypePolyLineM, ShapeTypePolygonM,
                    ShapeTypeMultiPointM, ShapeTypePointZ, ShapeTypePolyLineZ,
                    ShapeTypePolygonZ, ShapeTypeMultiPointZ]
                  omega
                · exact absurd (Or.inr (Or.inr hst)) hpt
                · -- PolyLineZ, layout XYZM
                  rw [hst] at heq hcl hErr ⊢
                  rw [show layoutOf ShapeTypePolyLineZ = Layout.xyzm from by decide] at hcl hErr
                  simp only [readPartsStep] at heq
                  rw [if_pos (show isPolyLineOrPolygon ShapeTypePolyLineZ = true
                    from by decide)] at heq
                  split at heq
                  · exact Except.noConfusion heq
                  split at heq
                  · exact Except.noConfusion heq
                  simp only [Except.ok.injEq, Prod.mk.injEq] at heq
                  obtain ⟨hnp, hr4, hpl⟩ := heq
                  simp only [readBoundsStep] at hErr
                  rw [if_pos (show isPolyLineOrPolygon ShapeTypePolyLineZ = true
                    from by decide)] at hErr
                  have hOrdM := readOrdinates_err_none hErr
                  have hPM := readFloat64Pair_err_none hOrdM.1
                  have hOrdZ := readOrdinates_err_none hPM.1
                  have hPZ := readFloat64Pair_err_none hOrdZ.1
                  have hXY := readXYs_err_none hPZ.1
                  have hEnds := readEnds_err_none hXY.1
                  have hU5 := readUint32_err_none hEnds.1
                  rw [← hr4] at hU5 hEnds hcl
                  have hU4 := readUint32_err_none hU5.1
                  have hC := chain36 hU4.1
                  rw [hC] at hpl hcl hU5 hEnds
                  have hA36 := readUint32_at hU5.1
                  norm_num at hA36
                  rw [hA36.1] at hpl
                  rw [hA36.2] at hEnds hcl
                  have hA40 := readUint32_at hEnds.1
                  rw [hA40.1] at hcl
                  push_neg at hcl
                  simp only [layoutPointsLen] at hcl
                  simp [specExpectedContentLength, declaredNumParts, declaredNumPoints,
                    isPolyLineOrPolygon, layoutOf, Layout.stride, ShapeTypeNull,
                    ShapeTypePoint, ShapeTypePolyLine, ShapeTypePolygon, ShapeTypeMultiPoint,
                    ShapeTypePointM, ShapeTypePolyLineM, ShapeTypePolygonM,
                    ShapeTypeMultiPointM, ShapeTypePointZ, ShapeTypePolyLineZ,
                    ShapeTypePolygonZ, ShapeTypeMultiPointZ]
                  omega
                · -- PolygonZ, layout XYZM
                  rw [hst] at heq hcl hErr ⊢
                  rw [show layoutOf ShapeTypePolygonZ = Layout.xyzm from by decide] at hcl hErr
                  simp only [readPartsStep] at heq
                  rw [if_pos (show isPolyLineOrPolygon ShapeTypePolygonZ = true
                    from by decide)] at heq
                  split at heq
                  · exact Except.noConfusion heq
                  split at heq
                  · exact Except.noConfusion heq
                  simp only [Except.ok.injEq, Prod.mk.injEq] at heq
                  obtain ⟨hnp, hr4, hpl⟩ := heq
                  simp only [readBoundsStep] at hErr
                  rw [if_pos (show isPolyLineOrPolygon ShapeTypePolygonZ = true
                    from by decide)] at hErr
                  have hOrdM := readOrdinates_err_none hErr
                  have hPM := readFloat64Pair_err_none hOrdM.1
                  have hOrdZ := readOrdinates_err_none hPM.1
                  have hPZ := readFloat64Pair_err_none hOrdZ.1
                  have hXY := readXYs_err_none hPZ.1
                  have hEnds := readEnds_err_none hXY.1
                  have hU5 := readUint32_err_none hEnds.1
                  rw [← hr4] at hU5 hEnds hcl
                  have hU4 := readUint32_err_none hU5.1
                  have hC := chain36 hU4.1
                  rw [hC] at hpl hcl hU5 hEnds
                  have hA36 := readUint32_at hU5.1
                  norm_num at hA36
                  rw [hA36.1] at hpl
                  rw [hA36.2] at hEnds hcl
                  have hA40 := readUint32_at hEnds.1
                  rw [hA40.1] at hcl
                  push_neg at hcl
                  simp only [layoutPointsLen] at hcl
                  simp [specExpectedContentLength, declaredNumParts, declaredNumPoints,
                    isPolyLineOrPolygon, layoutOf, Layout.stride, ShapeTypeNull,
                    ShapeTypePoint, ShapeTypePolyLine, ShapeTypePolygon, ShapeTypeMultiPoint,
                    ShapeTypePointM, ShapeTypePolyLineM, ShapeTypePolygonM,
                    ShapeTypeMultiPointM, ShapeTypePointZ, ShapeTypePolyLineZ,
                    ShapeTypePolygonZ, ShapeTypeMultiPointZ]
                  omega
                · -- MultiPointZ, layout XYZM
                  rw [hst] at heq hcl hErr ⊢
                  rw [show layoutOf ShapeTypeMultiPointZ = Layout.xyzm from by decide] at hcl hErr
                  simp only [readPartsStep] at heq
                  rw [if_neg (show ¬isPolyLineOrPolygon ShapeTypeMultiPointZ = true
                    from by decide)] at heq
                  simp only [Except.ok.injEq, Prod.mk.injEq] at heq
                  obtain ⟨hnp, hr4, hpl⟩ := heq
                  simp only [readBoundsStep] at hErr
                  rw [if_neg (show ¬isPolyLineOrPolygon ShapeTypeMultiPointZ = true
                    from by decide)] at hErr
                  have hOrdM := readOrdinates_err_none hErr
                  have hPM := readFloat64Pair_err_none hOrdM.1
                  have hOrdZ := readOrdinates_err_none hPM.1
                  have hPZ := readFloat64Pair_err_none hOrdZ.1
                  have hXY := readXYs_err_none hPZ.1
                  have hU5 := readUint32_err_none hXY.1
                  rw [← hr4] at hU5 hXY hcl
                  have hC := chain36 hU5.1
                  rw [hC] at hcl hXY
                  have hA36 := readUint32_at hXY.1
                  rw [hA36.1] at hcl
                  rw [← hpl] at hcl
                  push_neg at hcl
                  simp only [layoutPointsLen] at hcl
                  simp [specExpectedContentLength, declaredNumParts, declaredNumPoints,
                    isPolyLineOrPolygon, layoutOf, Layout.stride, ShapeTypeNull,
                    ShapeTypePoint, ShapeTypePolyLine, ShapeTypePolygon, ShapeTypeMultiPoint,
                    ShapeTypePointM, ShapeTypePolyLineM, ShapeTypePolygonM,
                    ShapeTypeMultiPointM, ShapeTypePointZ, ShapeTypePolyLineZ,
                    ShapeTypePolygonZ, ShapeTypeMultiPointZ]
                  omega

/-- C5, witness: the theorem applied to a MultiPoint record with zero
points and content length 40. -/
theorem claim5_content_length_witness :
    parseSHPRecordContent 1 40 c5WitnessData none = .ok c5WitnessRec ∧
      40 = specExpectedContentLength 8 (declaredNumParts c5WitnessData 8)
        (declaredNumPoints c5WitnessData 8) :=
  ⟨by decide,
    @claim5_content_length 1 40 c5WitnessData none c5WitnessRec (by decide) (by decide)
      (by decide)⟩

/-- If every ring before index `i + j` passes both ring checks and ring
`i + j` fails one, the grouping loop started at ring `i` errors with the
check-specific error. -/
theorem mpeLoop_first_bad {stride : Int} {fc : List FloatQ} {ends : List Int} :
    ∀ (j i po : Nat) (acc : List (List Int)),
      i + j < ends.length →
      (∀ k, i ≤ k → k < i + j → 4 ≤ ringNumPoints stride ends k ∧
        (ringDoubleArea stride fc ends k).beq (.finite 0) = false) →
      (ringNumPoints stride ends (i + j) < 4 ∨
        (ringDoubleArea stride fc ends (i + j)).beq (.finite 0) = true) →
      mpeLoop stride fc ends (ends.drop i) i po (ringOffset ends i) acc =
        .error (if ringNumPoints stride ends (i + j) < 4 then ErrM.tooFewPointsInRing
          else ErrM.zeroAreaRing) := by
  intro j
  induction j with
  | zero =>
    intro i po acc hlt hgood hbad
    simp only [Nat.add_zero] at hlt hbad ⊢
    have hi : i < ends.length := hlt
    have he : ends.getD i 0 = ends[i] := List.getD_eq_getElem ends 0 hi
    rw [List.drop_eq_getElem_cons hi]
    simp only [mpeLoop]
    have hnum : (ends[i] - ringOffset ends i).tdiv stride = ringNumPoints stride ends i := by
      simp only [ringNumPoints, ringEnd, he]
    have hda : doubleArea fc (ringOffset ends i) ends[i] stride =
        ringDoubleArea stride fc ends i := by
      simp only [ringDoubleArea, ringEnd, he]
    rw [hnum, hda]
    by_cases hp : ringNumPoints stride ends i < 4
    · rw [if_pos hp, if_pos hp]
    · rw [if_neg hp, if_neg hp]
      have hbeq : (ringDoubleArea stride fc ends i).beq (.finite 0) = true := by
        rcases hbad with hb | hb
        · exact absurd hb hp
        · exact hb
      rw [if_pos hbeq]
  | succ j ih =>
    intro i po acc hlt hgood hbad
    have hi : i < ends.length := by omega
    have he : ends.getD i 0 = ends[i] := List.getD_eq_getElem ends 0 hi
    rw [List.drop_eq_getElem_cons hi]
    simp only [mpeLoop]
    have hnum : (ends[i] - ringOffset ends i).tdiv stride = ringNumPoints stride ends i := by
      simp only [ringNumPoints, ringEnd, he]
    have hda : doubleArea fc (ringOffset ends i) ends[i] stride =
        ringDoubleArea stride fc ends i := by
      simp only [ringDoubleArea, ringEnd, he]
    have hg := hgood i (Nat.le_refl i) (by omega)
    rw [hnum, hda, if_neg (by omega), if_neg (by simp [hg.2])]
    have hoff : ringOffset ends (i + 1) = ends[i] := by
      simp only [ringOffset]
      exact he
    rw [← hoff]
    have hidx : i + 1 + j = i + (j + 1) := by omega
    have hgood' : ∀ k, i + 1 ≤ k → k < i + 1 + j →
        4 ≤ ringNumPoints stride ends k ∧
        (ringDoubleArea stride fc ends k).beq (.finite 0) = false := by
      intro k hk1 hk2
      exact hgood k (by omega) (by omega)
    have hbad' : ringNumPoints stride ends (i + 1 + j) < 4 ∨
        (ringDoubleArea stride fc ends (i + 1 + j)).beq (.finite 0) = true := by
      rw [hidx]
      exact hbad
    split
    · have hrec := ih (i + 1) i (acc ++ [(ends.drop po).take (i - po)]) (by omega) hgood' hbad'
      rw [hidx] at hrec
      exact hrec
    · have hrec := ih (i + 1) po acc (by omega) hgood' hbad'
      rw [hidx] at hrec
      exact hrec

/-- C7.  In a polygon record's ring table, if every ring before index `j`
passes both ring checks, a ring `j` with fewer than 4 points or with
signed double area exactly 0 always makes `makeMultiPolygonEndss` fail,
with the distinct per-check error (`too few points in ring` resp.
`zero area ring`), so no multipolygon geometry is produced. -/
theorem claim7_bad_ring {layout : Layout} {flatCoords : List FloatQ} {ends : List Int}
    {j : Nat}
    (hj : j < ends.length)
    (hgood : ∀ k, k < j → 4 ≤ ringNumPoints (layout.stride : Int) ends k ∧
      (ringDoubleArea (layout.stride : Int) flatCoords ends k).beq (.finite 0) = false)
    (hbad : ringNumPoints (layout.stride : Int) ends j < 4 ∨
      (ringDoubleArea (layout.stride : Int) flatCoords ends j).beq (.finite 0) = true) :
    makeMultiPolygonEndss layout flatCoords ends =
      .error (if ringNumPoints (layout.stride : Int) ends j < 4 then ErrM.tooFewPointsInRing
        else ErrM.zeroAreaRing) := by
  have h := @mpeLoop_first_bad (layout.stride : Int) flatCoords ends j 0 0 []
    (by omega) (fun k _ hk => hgood k (by omega)) (by simpa using hbad)
  simp only [Nat.zero_add] at h
  rw [show List.drop 0 ends = ends from rfl, show ringOffset ends 0 = 0 from rfl] at h
  unfold makeMultiPolygonEndss
  rw [h]

/-- C7, witness: the degenerate ring (0,0),(1,1),(2,2),(0,0) from the
spec (4 points, signed double area exactly 0) is rejected with the
zero-area error. -/
theorem claim7_bad_ring_witness :
    makeMultiPolygonEndss .xy degenerateRing [8] = .error ErrM.zeroAreaRing := by
  have h := @claim7_bad_ring Layout.xy degenerateRing [8] 0 (by decide)
    (fun k hk => absurd hk (by omega)) (by decide)
  rw [if_neg (by decide)] at h
  exact h

/-- A prefix of length `po` followed by the next `i - po` elements is the
prefix of length `i`. -/
theorem take_segment {α : Type} (l : List α) {po i : Nat} (hpo : po ≤ i) :
    l.take po ++ (l.drop po).take (i - po) = l.take i := by
  rw [List.take_drop]
  rw [show po + (i - po) = i from by omega]
  have h1 : (l.take i).take po = l.take po := by
    rw [List.take_take, Nat.min_eq_left hpo]
  rw [← h1]
  exact List.take_append_drop po (l.take i)

/-- Appending one further well-signed group to a well-signed group list
keeps it well-signed (the new group starts at the cumulative ring
index). -/
theorem GroupsSigned_append {stride : Int} {fc : List FloatQ} {ends : List Int} :
    ∀ (gs : List (List Int)) (b : Nat) (g : List Int),
      GroupsSigned stride fc ends gs b → g ≠ [] →
      (b + gs.flatten.length ≠ 0 →
        (ringDoubleArea stride fc ends (b + gs.flatten.length)).lt (.finite 0) = true) →
      (∀ r, 0 < r → r < g.length →
        (ringDoubleArea stride fc ends (b + gs.flatten.length + r)).lt (.finite 0) = false ∧
        (ringDoubleArea stride fc ends (b + gs.flatten.length + r)).beq (.finite 0) = false) →
      GroupsSigned stride fc ends (gs ++ [g]) b := by
  intro gs
  induction gs with
  | nil =>
    intro b g _ hne hfirst hrest
    refine ⟨hne, ?_, ?_, trivial⟩
    · simpa using hfirst
    · simpa using hrest
  | cons g0 gs ih =>
    intro b g hgs hne hfirst hrest
    obtain ⟨h1, h2, h3, h4⟩ := hgs
    have hlen : b + ((g0 :: gs).flatten).length = b + g0.length + gs.flatten.length := by
      simp only [List.flatten_cons, List.length_append]
      omega
    refine ⟨h1, h2, h3, ?_⟩
    refine ih (b + g0.length) g h4 hne ?_ ?_
    · intro hz
      rw [show b + g0.length + gs.flatten.length = b + ((g0 :: gs).flatten).length
        from by omega]
      exact hfirst (by omega)
    · intro r hr0 hrl
      rw [show b + g0.length + gs.flatten.length + r = b + ((g0 :: gs).flatten).length + r
        from by omega]
      exact hrest r hr0 hrl

/-- The grouping-loop invariant: started at ring `i` with the flushed
groups covering exactly the rings before the open group's first ring
`po`, a successful run returns groups covering exactly the rings before
the final open offset, all well-signed, with the recorded sign facts for
the final open group. -/
theorem mpeLoop_ok_inv {stride : Int} {fc : List FloatQ} {ends : List Int} :
    ∀ (l : List Int) (i po : Nat) (acc : List (List Int)) (endss : List (List Int)) (po' : Nat),
      l = ends.drop i →
      i ≤ ends.length →
      po ≤ i →
      (i ≠ 0 → po < i) →
      acc.flatten = ends.take po →
      GroupsSigned stride fc ends acc 0 →
      (po ≠ 0 → (ringDoubleArea stride fc ends po).lt (.finite 0) = true) →
      (∀ r, po < r → r < i →
        (ringDoubleArea stride fc ends r).lt (.finite 0) = false ∧
        (ringDoubleArea stride fc ends r).beq (.finite 0) = false) →
      mpeLoop stride fc ends l i po (ringOffset ends i) acc = .ok (endss, po') →
      endss.flatten = ends.take po' ∧ GroupsSigned stride fc ends endss 0 ∧
        po' ≤ ends.length ∧ (ends.length ≠ 0 → po' < ends.length) ∧
        (po' ≠ 0 → (ringDoubleArea stride fc ends po').lt (.finite 0) = true) ∧
        (∀ r, po' < r → r < ends.length →
          (ringDoubleArea stride fc ends r).lt (.finite 0) = false ∧
          (ringDoubleArea stride fc ends r).beq (.finite 0) = false) := by
  intro l
  induction l with
  | nil =>
    intro i po acc endss po' hl hi hpo hpoi hflat hgs hfirst hopen h
    have hlen : ends.length ≤ i := by
      by_contra hc
      push_neg at hc
      rw [List.drop_eq_getElem_cons hc] at hl
      exact List.noConfusion hl
    have hieq : i = ends.length := Nat.le_antisymm hi hlen
    simp only [mpeLoop, Except.ok.injEq, Prod.mk.injEq] at h
    obtain ⟨h1, h2⟩ := h
    subst h1
    subst h2
    refine ⟨hflat, hgs, by omega, ?_, hfirst, ?_⟩
    · intro hz
      have := hpoi (by omega)
      omega
    · intro r h1 h2
      exact hopen r h1 (by omega)
  | cons e rest ih =>
    intro i po acc endss po' hl hi hpo hpoi hflat hgs hfirst hopen h
    have hi' : i < ends.length := by
      by_contra hc
      push_neg at hc
      rw [List.drop_eq_nil_of_le hc] at hl
      exact List.noConfusion hl
    have he : ends.getD i 0 = ends[i] := List.getD_eq_getElem ends 0 hi'
    have hl2 : ends.drop i = ends[i] :: ends.drop (i + 1) := List.drop_eq_getElem_cons hi'
    rw [hl2] at hl
    obtain ⟨hee, hrest⟩ := List.cons.inj hl
    subst hee
    subst hrest
    simp only [mpeLoop] at h
    have hda : doubleArea fc (ringOffset ends i) ends[i] stride =
        ringDoubleArea stride fc ends i := by
      simp only [ringDoubleArea, ringEnd, he]
    rw [hda] at h
    have hoff : ringOffset ends (i + 1) = ends[i] := by
      simp only [ringOffset]
      exact he
    rw [← hoff] at h
    split at h
    · exact Except.noConfusion h
    · rename_i hp4
      split at h
      · exact Except.noConfusion h
      · rename_i hbeq
        split at h
        · rename_i hflush
          have hpo' : po < i := hpoi hflush.1
          refine ih (i + 1) i (acc ++ [(ends.drop po).take (i - po)]) endss po'
            rfl (by omega) (by omega) (by omega) ?_ ?_ ?_ ?_ h
          · simp only [List.flatten_append, List.flatten_cons, List.flatten_nil,
              List.append_nil, hflat]
            exact take_segment ends hpo
          · refine GroupsSigned_append acc 0 ((ends.drop po).take (i - po)) hgs ?_ ?_ ?_
            · intro hc
              have := congrArg List.length hc
              simp only [List.length_take, List.length_drop, List.length_nil] at this
              omega
            · have hfl : acc.flatten.length = po := by
                rw [hflat]
                simp only [List.length_take]
                omega
              intro hz
              rw [show (0 : Nat) + acc.flatten.length = po from by omega]
              exact hfirst (by omega)
            · have hfl : acc.flatten.length = po := by
                rw [hflat]
                simp only [List.length_take]
                omega
              intro r hr0 hrl
              have hsl : ((ends.drop po).take (i - po)).length = i - po := by
                simp only [List.length_take, List.length_drop]
                omega
              rw [hsl] at hrl
              rw [show (0 : Nat) + acc.flatten.length + r = po + r from by omega]
              exact hopen (po + r) (by omega) (by omega)
          · intro _
            exact hflush.2
          · intro r hr1 hr2
            exact absurd hr1 (by omega)
        · rename_i hflush
          refine ih (i + 1) po acc endss po' rfl (by omega) (by omega) (by omega)
            hflat hgs hfirst ?_ h
          intro r hr1 hr2
          by_cases hri : r = i
          · subst hri
            have hine : r ≠ 0 := by omega
            constructor
            · cases hlt : (ringDoubleArea stride fc ends r).lt (.finite 0)
              · rfl
              · exact absurd ⟨hine, hlt⟩ hflush
            · cases hb : (ringDoubleArea stride fc ends r).beq (.finite 0)
              · rfl
              · exact absurd hb hbeq
          · exact hopen r hr1 (by omega)

/-- C6, amended.  For every successfully grouped polygon record the
groups partition the ring table in order, the first ring of every group
other than a group starting at ring 0 has negative signed double area,
and every later ring of a group has signed double area that is neither
negative nor zero.  (The first ring of the record always starts the
first group regardless of sign, so the first group's first ring need not
have negative area — see the counterexample.) -/
theorem claim6_amended {layout : Layout} {flatCoords : List FloatQ} {ends : List Int}
    {endss : List (List Int)}
    (h : makeMultiPolygonEndss layout flatCoords ends = .ok endss) :
    endss.flatten = ends ∧ GroupsSigned (layout.stride : Int) flatCoords ends endss 0 := by
  unfold makeMultiPolygonEndss at h
  split at h
  · exact Except.noConfusion h
  · rename_i endss0 po0 hloop
    obtain ⟨hflat, hgs, hle, hltlen, hfirst, hopen⟩ :=
      mpeLoop_ok_inv ends 0 0 [] endss0 po0 rfl (Nat.zero_le _) (Nat.le_refl 0)
        (fun hz => absurd rfl hz) rfl trivial (fun hz => absurd rfl hz)
        (fun r h1 h2 => absurd h2 (by omega)) hloop
    by_cases hlen : 0 < ends.length
    · rw [if_pos hlen] at h
      have he := Except.ok.inj h
      subst he
      constructor
      · simp only [List.flatten_append, List.flatten_cons, List.flatten_nil,
          List.append_nil, hflat]
        exact List.take_append_drop po0 ends
      · refine GroupsSigned_append endss0 0 (ends.drop po0) hgs ?_ ?_ ?_
        · have hplt : po0 < ends.length := hltlen (by omega)
          intro hc
          rw [List.drop_eq_nil_iff] at hc
          omega
        · have hfl : endss0.flatten.length = po0 := by
            rw [hflat]
            simp only [List.length_take]
            omega
          intro hz
          rw [show (0 : Nat) + endss0.flatten.length = po0 from by omega]
          exact hfirst (by omega)
        · have hfl : endss0.flatten.length = po0 := by
            rw [hflat]
            simp only [List.length_take]
            omega
          intro r hr0 hrl
          have hrlen : (ends.drop po0).length = ends.length - po0 := by
            simp only [List.length_drop]
          rw [hrlen] at hrl
          rw [show (0 : Nat) + endss0.flatten.length + r = po0 + r from by omega]
          exact hopen (po0 + r) (by omega) (by omega)
    · rw [if_neg hlen] at h
      have he := Except.ok.inj h
      subst he
      have hnil : ends = [] := by
        cases ends
        · rfl
        · simp at hlen
      subst hnil
      refine ⟨?_, hgs⟩
      rw [hflat]
      simp

/-- C6, witness: the amended theorem applied to the single
counter-clockwise square ring, which forms one group. -/
theorem claim6_amended_witness :
    ([[10]] : List (List Int)).flatten = [10] ∧
      GroupsSigned (Layout.xy.stride : Int) ccwSquare [10] [[10]] 0 :=
  @claim6_amended Layout.xy ccwSquare [10] [[10]] (by decide)

end GoShapefile
